import Mathlib

/-!
Verification of the MININET_A-_PARALLEL route compiler.

This file shallowly embeds the routing core of the repository:
`src/router.py` (A* backend and flow compiler), `src/router_dijkstra.py`
(Dijkstra-CPU backend), `src/router_pycuda.py` (Dijkstra-GPU backend),
`src/onos_api.py` (controller client) and `src/app.py` (orchestrator).

Conventions of the embedding:
* Python strings stay `String`; Python floats become `ℚ` (all constants in
  the sources are decimal literals, and every comparison proved here is
  robust to the float32/float64 rounding of the originals);
* Python dicts become association lists looked up with last-write-wins
  semantics (`dict_get`), matching dict assignment order;
* fallible code (Python exceptions) returns `Except String`;
* `None`-or-value results become `Option`;
* Python truthiness of strings (`if in_port and out_port`, `if not switch1`)
  is modelled by explicit emptiness tests on the underlying string.
-/

set_option autoImplicit false

namespace Mininet

/-- One host location entry, `{"elementId": ..., "port": ...}` of the ONOS
hosts listing. -/
structure HostLocation where
  elementId : String
  port : String
deriving DecidableEq

/-- One host of the ONOS hosts listing: `mac`, `ipAddresses`, `locations`. -/
structure Host where
  mac : String
  ipAddresses : List String
  locations : List HostLocation
deriving DecidableEq

/-- One endpoint of a link: `{"device": ..., "port": ...}`. -/
structure LinkEnd where
  device : String
  port : String
deriving DecidableEq

/-- One (directed) link record of the ONOS links listing. -/
structure Link where
  src : LinkEnd
  dst : LinkEnd
deriving DecidableEq

/-- The sidecar topology file (`topology_data.json`): its `distances`
dictionary, keyed by `"A-B"` strings.  The `bandwidth` table is never read
by the routing core and is omitted. -/
structure TopologyData where
  distances : List (String × ℚ)
deriving DecidableEq

/-- The topology snapshot a router instance works from: the three controller
listings plus the optional sidecar file (`None` when no file was found). -/
structure Topology where
  hosts : List Host
  switches : List String
  links : List Link
  topology_data : Option TopologyData
deriving DecidableEq

/-- Python dict lookup over an association list built by repeated
assignment: the entry assigned last wins. -/
def dict_get {α β : Type} [DecidableEq α] : List (α × β) → α → Option β
  | [], _ => none
  | e :: rest, k =>
    match dict_get rest k with
    | some v => some v
    | none => if e.1 = k then some e.2 else none

/-- `HOST_SWITCH_WEIGHT = 0.1`, the fixed host-to-switch edge weight shared
by all three router modules. -/
def HOST_SWITCH_WEIGHT : ℚ := 1/10

/-- `DEFAULT_PRIORITY = 10`, the priority of every emitted rule. -/
def DEFAULT_PRIORITY : ℕ := 10

/-- `Router.clean_dpid`: drop an `of:` transport prefix. -/
def clean_dpid (dpid : String) : String :=
  if dpid.startsWith "of:" then dpid.drop 3 else dpid

/-- `Router.find_distance` (identical in all three router modules): `0.0`
for equal nodes, otherwise probe the sidecar `distances` dict under the key
`"node1-node2"` and then `"node2-node1"`; `None` when the sidecar is absent
or both keys miss. -/
def find_distance (td : Option TopologyData) (node1 node2 : String) : Option ℚ :=
  if node1 = node2 then some 0
  else
    match td with
    | none => none
    | some d =>
      match dict_get d.distances (node1 ++ "-" ++ node2) with
      | some v => some v
      | none => dict_get d.distances (node2 ++ "-" ++ node1)

/-- The four O(1) lookup tables built by `Router.build_lookups`. -/
structure Lookups where
  mac_to_ip : List (String × String)
  mac_to_location : List (String × String × String)
  port_map : List ((String × String) × String)
  switches_set : List String
deriving DecidableEq

/-- `Router.build_lookups`: rebuild the four index tables from the raw
listings.  Accessing `host["ipAddresses"][0]` or `host["locations"][0]`
raises an `IndexError` in Python when the list is empty; that is the only
exception this function can produce. -/
def build_lookups (hosts : List Host) (links : List Link) (switches : List String) :
    Except String Lookups :=
  if hosts.any (fun h => h.ipAddresses.isEmpty || h.locations.isEmpty) then
    Except.error "IndexError"
  else
    Except.ok
      { mac_to_ip := hosts.filterMap (fun h => h.ipAddresses.head?.map (fun ip => (h.mac, ip)))
        mac_to_location := hosts.filterMap
          (fun h => h.locations.head?.map (fun loc => (h.mac, loc.elementId, loc.port)))
        port_map :=
          links.map (fun l => ((l.src.device, l.dst.device), l.src.port))
            ++ hosts.filterMap
                (fun h => h.locations.head?.map (fun loc => ((loc.elementId, h.mac), loc.port)))
        switches_set := switches }

/-- `Router.validate_hosts_connectivity`: `False` when some host has no
location or points at a switch outside the switch set; only the boolean is
observable (the function merely prints the offenders). -/
def validate_hosts_connectivity (hosts : List Host) (switches_set : List String) : Bool :=
  hosts.all (fun h =>
    match h.locations with
    | [] => false
    | loc :: _ => decide (loc.elementId ∈ switches_set))

/-- An undirected weighted edge of the `networkx` graph; `nx.Graph` is
modelled as the list of `add_edge` calls, looked up unordered with the last
call winning (matching `add_edge` weight overwriting). -/
abbrev Edge := String × String × ℚ

/-- The host-to-attachment-switch edge added by `Router.build_graph` for one
host (`None` when `host["locations"][0]` would raise). -/
def host_edge (h : Host) : Option Edge :=
  h.locations.head?.map (fun loc => (h.mac, loc.elementId, HOST_SWITCH_WEIGHT))

/-- The weight `Router.build_graph` gives a switch-switch link: the sidecar
distance of the cleaned device pair when found, else the default `1.0`. -/
def link_weight (t : Topology) (l : Link) : ℚ :=
  (find_distance t.topology_data (clean_dpid l.src.device) (clean_dpid l.dst.device)).getD 1

/-- `Router.build_graph`: raises when the sidecar is missing, when there are
no hosts, when a host has no location (`IndexError`), or when there are no
links; otherwise the graph holds one weighted edge per host and per link. -/
def build_graph (t : Topology) : Except String (List Edge) :=
  if t.topology_data.isNone then Except.error "Topology data required for A*"
  else if t.hosts.isEmpty then Except.error "No hosts found in ONOS"
  else if t.hosts.any (fun h => h.locations.isEmpty) then Except.error "IndexError"
  else if t.links.isEmpty then Except.error "No switch links found"
  else
    Except.ok
      (t.hosts.filterMap host_edge
        ++ t.links.map (fun l => (l.src.device, l.dst.device, link_weight t l)))

/-- Weight of the undirected edge `{u, v}` in an `nx.Graph` built from a
list of `add_edge` calls (the most recent call wins). -/
def graph_weight (g : List Edge) (u v : String) : Option ℚ :=
  (g.reverse.find? (fun e =>
    decide ((e.1 = u ∧ e.2.1 = v) ∨ (e.1 = v ∧ e.2.1 = u)))).map (fun e => e.2.2)

/-- The full router state refreshed by `Router.update`. -/
structure RouterState where
  hosts : List Host
  switches : List String
  links : List Link
  lookups : Lookups
deriving DecidableEq

/-- The body of `Router.update`'s `try` block: the three controller fetches
followed by `build_lookups` (then `validate_hosts_connectivity`, whose
boolean result is discarded, so it does not appear in the state). -/
def update_attempt (fh : Except String (List Host)) (fs : Except String (List String))
    (fl : Except String (List Link)) : Except String RouterState :=
  match fh with
  | Except.error e => Except.error e
  | Except.ok hosts =>
    match fs with
    | Except.error e => Except.error e
    | Except.ok switches =>
      match fl with
      | Except.error e => Except.error e
      | Except.ok links =>
        match build_lookups hosts links switches with
        | Except.error e => Except.error e
        | Except.ok lk => Except.ok { hosts := hosts, switches := switches, links := links, lookups := lk }

/-- `Router.update` (`RouterDijkstra.update` and `RouterPyCUDA.update` are
identical): every exception is caught, logged, and answered by resetting
`hosts`, `switches` and `links` to empty lists; the function itself never
raises, hence the result is always `Except.ok`.  The lookup tables are left
as they were before the call when an exception interrupts the attempt (the
Python code may leave them partially rebuilt when `build_lookups` itself
raises mid-loop; no property below depends on that corner, and for fetch
errors — the only hypothesis used — the tables are untouched in both). -/
def update (prev : RouterState) (fh : Except String (List Host))
    (fs : Except String (List String)) (fl : Except String (List Link)) :
    Except String RouterState :=
  match update_attempt fh fs fl with
  | Except.ok s => Except.ok s
  | Except.error _ => Except.ok { prev with hosts := [], switches := [], links := [] }

/-- One compiled flow tuple, in the field order of the Python tuple
`(current_switch, in_port, out_port, DEFAULT_PRIORITY, dst_mac, src_mac)`
accumulated in `unique_flows_final`. -/
structure FlowTuple where
  switch_id : String
  in_port : String
  out_port : String
  priority : ℕ
  eth_dst : String
  eth_src : String
deriving DecidableEq

/-- The rule the interior loop of `Router.install_all_routes` (and of the
three batch workers, whose bodies are identical) emits at position `i` of a
direction path: the node must be a switch, both port lookups must hit, and
both ports must be truthy (non-empty) strings. -/
def interior_flow (pm : List ((String × String) × String)) (ss : List String)
    (p : List String) (dst_mac src_mac : String) (i : ℕ) : Option FlowTuple :=
  match p.get? (i - 1), p.get? i, p.get? (i + 1) with
  | some prev, some cur, some next =>
    if cur ∈ ss then
      match dict_get pm (cur, prev), dict_get pm (cur, next) with
      | some ipt, some opt =>
        if ipt = "" ∨ opt = "" then none
        else some ⟨cur, ipt, opt, DEFAULT_PRIORITY, dst_mac, src_mac⟩
      | _, _ => none
    else none
  | _, _, _ => none

/-- All rules one direction pass (`for i in range(1, len(direction_path) - 1)`)
emits for a direction path. -/
def flows_for_direction (pm : List ((String × String) × String)) (ss : List String)
    (p : List String) (dst_mac src_mac : String) : List FlowTuple :=
  (List.range' 1 (p.length - 2)).filterMap (interior_flow pm ss p dst_mac src_mac)

/-- Both direction passes of the per-pair loop
(`for direction_path in [path, list(reversed(path))]`).  The Python code
picks `dst_mac`/`src_mac` by comparing `direction_path == path`, so a
palindromic path would keep the forward assignment in the second pass; the
comparison is embedded as written. -/
def flows_for_path (pm : List ((String × String) × String)) (ss : List String)
    (path : List String) (source_mac target_mac : String) : List FlowTuple :=
  flows_for_direction pm ss path target_mac source_mac
    ++ (if path.reverse = path
        then flows_for_direction pm ss path.reverse target_mac source_mac
        else flows_for_direction pm ss path.reverse source_mac target_mac)

/-- Concatenation of a list-valued map, used for the per-pair accumulation
into `unique_flows_final` (a Python set: only membership and the deduplicated
extent are observable, both preserved by list concatenation). -/
def concat_map {α β : Type} (f : α → List β) : List α → List β
  | [] => []
  | a :: l => f a ++ concat_map f l

/-- `itertools.combinations(host_macs, 2)`, in listing order. -/
def combinations2 {α : Type} : List α → List (α × α)
  | [] => []
  | x :: xs => xs.map (fun y => (x, y)) ++ combinations2 xs

/-- The dict comprehension `{host["ipAddresses"][0]: host for host in hosts}`
followed by `.values()`: keys keep first-occurrence order while the value
stored under a key is the last host carrying that IP. -/
def dedup_by_ip (keyed : List (String × Host)) : List Host :=
  ((keyed.map Prod.fst).eraseDups).filterMap (fun ip => dict_get keyed ip)

/-- `unique_hosts` of `Router.install_all_routes`: one representative host
per first IP address (`IndexError` when some host has no IP). -/
def unique_hosts (hosts : List Host) : Except String (List Host) :=
  if hosts.any (fun h => h.ipAddresses.isEmpty) then Except.error "IndexError"
  else Except.ok (dedup_by_ip (hosts.filterMap
    (fun h => h.ipAddresses.head?.map (fun ip => (ip, h)))))

/-- A path finder standing for the library search the backend delegates to
(`nx.astar_path` for the A* backend): given the built graph and two
endpoints it returns a node path, or `none` for `NetworkXNoPath`. -/
abbrev Finder := List Edge → String → String → Option (List String)

/-- The per-pair body of the route loop: skip the pair when the two MACs
resolve to the same IP (including both lookups missing, as `None == None`
in Python), skip it when no path is found, otherwise compile both direction
passes. -/
def pair_flows (lk : Lookups) (g : List Edge) (fp : Finder) (pr : String × String) :
    List FlowTuple :=
  if dict_get lk.mac_to_ip pr.1 = dict_get lk.mac_to_ip pr.2 then []
  else
    match fp g pr.1 pr.2 with
    | none => []
    | some p => flows_for_path lk.port_map lk.switches_set p pr.1 pr.2

/-- `Router.install_all_routes` up to the compiled rule set (the subsequent
`generate_flows`/`push_flows_to_onos` steps only reformat and ship it):
build the graph, deduplicate hosts by IP, loop over unordered MAC pairs and
accumulate the per-pair flows.  The lookup tables are those built by the
preceding `update` call, passed in as `lk`; the switch-distance oracle the
A* heuristic consults lives inside `fp`. -/
def install_all_routes (t : Topology) (lk : Lookups) (fp : Finder) :
    Except String (List FlowTuple) :=
  match build_graph t with
  | Except.error e => Except.error e
  | Except.ok g =>
    match unique_hosts t.hosts with
    | Except.error e => Except.error e
    | Except.ok uh =>
      let host_macs := uh.map (fun h => h.mac)
      if host_macs.length < 2 then Except.ok []
      else Except.ok (concat_map (pair_flows lk g fp) (combinations2 host_macs))

/-- The precomputed switch-to-switch distance table
(`precomputed_switch_distances`), flattened from the nested dict
`{clean_source: {clean_target: distance}}` to pair keys.  The Python
nested-`get` with default `0.0` becomes `D_get`. -/
abbrev DTable := List ((String × String) × ℚ)

/-- `precomputed_switch_distances.get(c1, {}).get(c2, 0.0)`. -/
def D_get (D : DTable) (a b : String) : ℚ :=
  (dict_get D (a, b)).getD 0

/-- `Router.get_host_switch`: scan the switch set for a switch holding a
port towards the host MAC. -/
def get_host_switch (lk : Lookups) (host_mac : String) : Option String :=
  lk.switches_set.find? (fun sw => (dict_get lk.port_map (sw, host_mac)).isSome)

/-- `Router.get_switch_for_node`: a host MAC anchors at its attachment
switch, a switch at itself. -/
def get_switch_for_node (lk : Lookups) (node : String) : Option String :=
  if (dict_get lk.mac_to_ip node).isSome then get_host_switch lk node
  else if node ∈ lk.switches_set then some node
  else none

/-- `Router.heuristic_function` (the `process_batch_worker` copy is
identical): zero for equal nodes, for an empty distance table, or when an
anchor switch is missing or falsy; otherwise the host-switch offsets of the
two endpoints plus the precomputed distance between the cleaned anchors. -/
def heuristic_function (lk : Lookups) (D : DTable) (node1 node2 : String) : ℚ :=
  if node1 = node2 then 0
  else if D = [] then 0
  else
    match get_switch_for_node lk node1, get_switch_for_node lk node2 with
    | some s1, some s2 =>
      if s1 = "" ∨ s2 = "" then 0
      else
        (if (dict_get lk.mac_to_ip node1).isSome then HOST_SWITCH_WEIGHT else 0)
          + (if (dict_get lk.mac_to_ip node2).isSome then HOST_SWITCH_WEIGHT else 0)
          + D_get D (clean_dpid s1) (clean_dpid s2)
    | _, _ => 0

/-- The weight `RouterDijkstra.build_adjacency_matrix` writes for a
switch-switch link: the sidecar distance when found, else the default
`10.0`. -/
def dijkstra_link_weight (t : Topology) (l : Link) : ℚ :=
  (find_distance t.topology_data (clean_dpid l.src.device) (clean_dpid l.dst.device)).getD 10

/-- The weight `RouterPyCUDA.build_adjacency_matrix` (and its
`build_adjacency_lookup`) writes for a switch-switch link: the sidecar
distance when found, else the default `1.0`. -/
def pycuda_link_weight (t : Topology) (l : Link) : ℚ :=
  (find_distance t.topology_data (clean_dpid l.src.device) (clean_dpid l.dst.device)).getD 1

/-- `RouterDijkstra.build_adjacency_matrix`, as the list of matrix writes:
host rows get `HOST_SWITCH_WEIGHT`, link rows the sidecar distance or
`10.0`.  A zero entry of the matrix means "no edge" to `dijkstra_cpu_worker`
(its relaxation requires `weight > 0`), which `cpu_weight_fn` reflects. -/
def build_adjacency_edges (t : Topology) : Except String (List Edge) :=
  if t.topology_data.isNone then Except.error "Topology data required for Dijkstra"
  else if t.hosts.isEmpty then Except.error "No hosts found in ONOS"
  else if t.hosts.any (fun h => h.locations.isEmpty) then Except.error "IndexError"
  else
    Except.ok
      (t.hosts.filterMap host_edge
        ++ t.links.map (fun l => (l.src.device, l.dst.device, dijkstra_link_weight t l)))

/-- Edge predicate of the CPU Dijkstra metric: a positive adjacency entry. -/
def cpu_weight_fn (es : List Edge) (u v : String) : Option ℚ :=
  match graph_weight es u v with
  | some w => if 0 < w then some w else none
  | none => none

/-- Total weight of a node path under an edge-weight function (missing
edges count as zero; every path considered below has all edges present). -/
def path_cost (wfn : String → String → Option ℚ) : List String → ℚ
  | a :: b :: rest => (wfn a b).getD 0 + path_cost wfn (b :: rest)
  | _ => 0

/-- All simple paths from `c` to `tgt` whose further nodes are drawn from
`allowed`, with a fuel bound.  Support for the chosen-path model below. -/
def simple_paths (wfn : String → String → Option ℚ) (allowed : List String) :
    ℕ → String → String → List (List String)
  | 0, c, tgt => if c = tgt then [[c]] else []
  | fuel + 1, c, tgt =>
    if c = tgt then [[c]]
    else
      concat_map
        (fun n => (simple_paths wfn (allowed.erase n) fuel n tgt).map (fun p => c :: p))
        (allowed.filter (fun n => (wfn c n).isSome))

/-- Deduplication keeping the last occurrence, with provable `Nodup`. -/
def dedup_strings : List String → List String
  | [] => []
  | x :: xs => if x ∈ xs then dedup_strings xs else x :: dedup_strings xs

/-- All node names mentioned by the edge list, without duplicates. -/
def graph_nodes (g : List Edge) : List String :=
  dedup_strings (concat_map (fun e => [e.1, e.2.1]) g)

/-- Minimum of a list of rationals (`none` for the empty list). -/
def list_min : List ℚ → Option ℚ
  | [] => none
  | x :: xs =>
    match list_min xs with
    | none => some x
    | some m => some (min x m)

/-- Modelled from the spec: each backend's chosen path for a host pair is a
path of minimal total weight in that backend's own weighted graph
(`nx.astar_path` with the precomputed-oracle heuristic for A*; Dijkstra
distances plus exact backtracking for the CPU backend), so the cost of the
chosen path equals the minimum simple-path cost between the endpoints. -/
def min_cost_value (wfn : String → String → Option ℚ) (nodes : List String)
    (u v : String) : Option ℚ :=
  list_min ((simple_paths wfn (nodes.erase u) nodes.length u v).map (path_cost wfn))

/-- Modelled from the spec: `nx.astar_path` returns a minimum-total-weight
path (the heuristic is consistent, see the C6 theorem below); realized as
the first minimum-cost member of the simple-path enumeration, `none` when
no path exists (`NetworkXNoPath`). -/
def find_path_model (g : List Edge) (u v : String) : Option (List String) :=
  (simple_paths (graph_weight g) ((graph_nodes g).erase u) (graph_nodes g).length u v).foldl
    (fun best p =>
      match best with
      | none => some p
      | some b => if path_cost (graph_weight g) p < path_cost (graph_weight g) b then some p else best)
    none

/-- Chosen-path cost of the A* backend for one host pair, under the
minimal-cost model above. -/
def backend_pair_cost_astar (t : Topology) (u v : String) : Option ℚ :=
  match build_graph t with
  | Except.ok g => min_cost_value (graph_weight g) (graph_nodes g) u v
  | Except.error _ => none

/-- Chosen-path cost of the Dijkstra-CPU backend for one host pair, under
the minimal-cost model above and the CPU adjacency weights. -/
def backend_pair_cost_cpu (t : Topology) (u v : String) : Option ℚ :=
  match build_adjacency_edges t with
  | Except.ok es => min_cost_value (cpu_weight_fn es) (graph_nodes es) u v
  | Except.error _ => none

/-- One installed flow as the controller reports it: its `id` and owning
`appId` (the only two fields `OnosApi.delete_all_flows` reads). -/
structure OnosFlow where
  id : String
  appId : String
deriving DecidableEq

/-- `OnosApi.delete_all_flows`: for every device, fetch its flows, keep the
ones owned by `org.onosproject.core`, and submit the rest to the batch
delete endpoint by `(deviceId, flowId)`.  Modelled from the spec: the
controller's `DELETE /flows` removes exactly the listed `(deviceId, flowId)`
entries, and every REST call succeeds (transport failures are out of scope
of the claims below). -/
def delete_all_flows (table : List (String × List OnosFlow)) :
    List (String × List OnosFlow) :=
  table.map (fun dev =>
    let dels := (dev.2.filter (fun f => !(f.appId = "org.onosproject.core" : Bool))).map
      (fun f => f.id)
    (dev.1, dev.2.filter (fun f => decide (f.id ∉ dels))))

/-! Helper lemmas about the dictionary and graph encodings. -/

theorem dict_get_mem {α β : Type} [DecidableEq α] {l : List (α × β)} {k : α} {v : β}
    (h : dict_get l k = some v) : (k, v) ∈ l := by
  induction l with
  | nil => simp [dict_get] at h
  | cons e rest ih =>
    rw [dict_get] at h
    rcases hr : dict_get rest k with _ | w
    · rw [hr] at h
      split_ifs at h with hk
      cases h
      rcases e with ⟨k1, v1⟩
      simp at hk
      subst hk
      simp
    · rw [hr] at h
      cases h
      exact List.mem_cons_of_mem _ (ih hr)

theorem dict_get_isSome_of_mem {α β : Type} [DecidableEq α] {l : List (α × β)} {k : α} {v : β}
    (h : (k, v) ∈ l) : (dict_get l k).isSome := by
  induction l with
  | nil => simp at h
  | cons e rest ih =>
    rw [dict_get]
    rcases hr : dict_get rest k with _ | w
    · rcases List.mem_cons.mp h with he | hm
      · rw [← he]
        simp
      · have := ih hm
        rw [hr] at this
        simp at this
    · simp

theorem dict_get_value_mem {α β : Type} [DecidableEq α] {l : List (α × β)} {k : α} {v : β}
    (h : dict_get l k = some v) : ∃ e ∈ l, e.2 = v :=
  ⟨(k, v), dict_get_mem h, rfl⟩

theorem list_find?_congr {α : Type} {p q : α → Bool} (h : ∀ a, p a = q a) :
    ∀ l : List α, l.find? p = l.find? q := by
  intro l
  induction l with
  | nil => rfl
  | cons a l ih => simp [List.find?, h a, ih]

theorem list_find?_unique_mem {α : Type} {p : α → Bool} {l : List α} {x : α}
    (hx : x ∈ l) (hpx : p x = true) (huniq : ∀ y ∈ l, p y = true → y = x) :
    l.find? p = some x := by
  induction l with
  | nil => simp at hx
  | cons a l ih =>
    rcases List.mem_cons.mp hx with ha | hm
    · subst ha
      simp [List.find?, hpx]
    · by_cases hpa : p a = true
      · have : a = x := huniq a (List.mem_cons_self a l) hpa
        subst this
        simp [List.find?, hpa]
      · have hpa' : p a = false := by
          cases hp : p a
          · rfl
          · exact absurd hp hpa
        simp [List.find?, hpa']
        exact ih hm (fun y hy hpy => huniq y (List.mem_cons_of_mem _ hy) hpy)

theorem graph_weight_mem {g : List Edge} {u v : String} {w : ℚ}
    (h : graph_weight g u v = some w) : (u, v, w) ∈ g ∨ (v, u, w) ∈ g := by
  rw [graph_weight] at h
  rcases hf : g.reverse.find? (fun e =>
      decide ((e.1 = u ∧ e.2.1 = v) ∨ (e.1 = v ∧ e.2.1 = u))) with _ | e
  · rw [hf] at h
    simp at h
  · rw [hf] at h
    simp at h
    have hm : e ∈ g := List.mem_reverse.mp (List.mem_of_find?_eq_some hf)
    have hp := List.find?_some hf
    simp at hp
    rcases e with ⟨a, b, wt⟩
    simp at hp h
    rcases hp with ⟨ha, hb⟩ | ⟨ha, hb⟩
    · left
      subst ha; subst hb; subst h
      exact hm
    · right
      subst ha; subst hb; subst h
      exact hm

theorem graph_weight_comm (g : List Edge) (u v : String) :
    graph_weight g u v = graph_weight g v u := by
  rw [graph_weight, graph_weight, list_find?_congr]
  intro e
  apply decide_eq_decide.mpr
  tauto

theorem graph_weight_isSome_left {g : List Edge} {u v : String} {w : ℚ}
    (h : (u, v, w) ∈ g) : (graph_weight g u v).isSome := by
  rw [graph_weight]
  rcases ho : g.reverse.find? (fun e =>
      decide ((e.1 = u ∧ e.2.1 = v) ∨ (e.1 = v ∧ e.2.1 = u))) with _ | e
  · exfalso
    have := List.find?_eq_none.mp ho (u, v, w) (List.mem_reverse.mpr h)
    simp at this
  · rw [ho]
    simp

theorem build_graph_ok {t : Topology} {g : List Edge} (h : build_graph t = Except.ok g) :
    g = t.hosts.filterMap host_edge
        ++ t.links.map (fun l => (l.src.device, l.dst.device, link_weight t l)) := by
  rw [build_graph] at h
  split_ifs at h
  cases h
  rfl

theorem build_graph_no_empty_locations {t : Topology} {g : List Edge}
    (h : build_graph t = Except.ok g) :
    t.hosts.any (fun h0 => h0.locations.isEmpty) = false := by
  rw [build_graph] at h
  split_ifs at h with h1 h2 h3 h4
  cases h
  exact Bool.of_not_eq_true h3

theorem build_lookups_ok {hosts : List Host} {links : List Link} {switches : List String}
    {lk : Lookups} (h : build_lookups hosts links switches = Except.ok lk) :
    lk = { mac_to_ip := hosts.filterMap (fun h => h.ipAddresses.head?.map (fun ip => (h.mac, ip)))
           mac_to_location := hosts.filterMap
             (fun h => h.locations.head?.map (fun loc => (h.mac, loc.elementId, loc.port)))
           port_map :=
             links.map (fun l => ((l.src.device, l.dst.device), l.src.port))
               ++ hosts.filterMap
                   (fun h => h.locations.head?.map (fun loc => ((loc.elementId, h.mac), loc.port)))
           switches_set := switches } := by
  rw [build_lookups] at h
  split_ifs at h
  cases h
  rfl

theorem build_lookups_hosts_complete {hosts : List Host} {links : List Link}
    {switches : List String} {lk : Lookups}
    (h : build_lookups hosts links switches = Except.ok lk) :
    hosts.any (fun h0 => h0.ipAddresses.isEmpty || h0.locations.isEmpty) = false := by
  rw [build_lookups] at h
  split_ifs at h with h1
  exact Bool.of_not_eq_true h1

/-! Concrete topologies used by the counterexamples and witnesses. -/

/-- Host `h1` at switch `of:a`, port 1. -/
def host_h1 : Host := ⟨"00:01", ["10.0.0.1"], [⟨"of:a", "1"⟩]⟩

/-- Host `h2` at switch `of:b`, port 1. -/
def host_h2 : Host := ⟨"00:02", ["10.0.0.2"], [⟨"of:b", "1"⟩]⟩

/-- The directed link listing `of:a/3 → of:b/3`. -/
def link_ab : Link := ⟨⟨"of:a", "3"⟩, ⟨"of:b", "3"⟩⟩

/-- The reverse listing `of:b/3 → of:a/3`. -/
def link_ba : Link := ⟨⟨"of:b", "3"⟩, ⟨"of:a", "3"⟩⟩

/-- A two-switch chain `h1 — of:a — of:b — h2` whose sidecar file is present
but holds no distances: every switch-switch lookup misses. -/
def chain_topology : Topology :=
  ⟨[host_h1, host_h2], ["of:a", "of:b"], [link_ab, link_ba], some ⟨[]⟩⟩

/-- The same chain with the sidecar distance `"a-b" ↦ 5` present. -/
def dist_topology : Topology :=
  ⟨[host_h1, host_h2], ["of:a", "of:b"], [link_ab, link_ba], some ⟨[("a-b", 5)]⟩⟩

/-! Claim C1. -/

/-- C1 counterexample: on the chain topology whose sidecar misses, the A*
backend weighs the inter-switch edge `1.0` while the Dijkstra-CPU backend
weighs it `10.0`, so for the single host pair the chosen-path costs are
`0.1 + 1.0 + 0.1 = 1.2` versus `0.1 + 10.0 + 0.1 = 10.2`: the sum of
chosen-path costs over all host pairs differs between the backends. -/
theorem c1_cost_sums_differ :
    backend_pair_cost_astar chain_topology "00:01" "00:02" = some (6/5) ∧
    backend_pair_cost_cpu chain_topology "00:01" "00:02" = some (51/5) ∧
    backend_pair_cost_astar chain_topology "00:01" "00:02" ≠
      backend_pair_cost_cpu chain_topology "00:01" "00:02" := by
  have h1 : backend_pair_cost_astar chain_topology "00:01" "00:02" = some (6/5) := by
    with_unfolding_all rfl
  have h2 : backend_pair_cost_cpu chain_topology "00:01" "00:02" = some (51/5) := by
    with_unfolding_all rfl
  refine ⟨h1, h2, ?_⟩
  rw [h1, h2]
  intro hx
  have := Option.some.inj hx
  norm_num at this

/-- C1 as amended: on any topology whose sidecar resolves a link's distance,
all three backends (A* `build_graph`, Dijkstra-CPU and Dijkstra-GPU
`build_adjacency_matrix`) give that link the same weight — the sidecar
distance — so the backends only diverge on sidecar misses, where the CPU
backend alone defaults to `10.0` instead of `1.0`. -/
theorem c1_backend_weights_agree_on_hit (t : Topology) (l : Link) (_hl : l ∈ t.links) (d : ℚ)
    (hd : find_distance t.topology_data (clean_dpid l.src.device) (clean_dpid l.dst.device) =
      some d) :
    link_weight t l = d ∧ dijkstra_link_weight t l = d ∧ pycuda_link_weight t l = d := by
  rw [link_weight, dijkstra_link_weight, pycuda_link_weight, hd]
  simp

/-- C1 witness: the amended statement applied to the chain with distance 5. -/
theorem c1_backend_weights_agree_on_hit_witness :
    find_distance dist_topology.topology_data (clean_dpid link_ab.src.device)
        (clean_dpid link_ab.dst.device) = some 5 ∧
    link_ab ∈ dist_topology.links ∧
    (link_weight dist_topology link_ab = 5 ∧ dijkstra_link_weight dist_topology link_ab = 5 ∧
      pycuda_link_weight dist_topology link_ab = 5) := by
  have hd : find_distance dist_topology.topology_data (clean_dpid link_ab.src.device)
      (clean_dpid link_ab.dst.device) = some 5 := by with_unfolding_all rfl
  exact ⟨hd, by simp [dist_topology], c1_backend_weights_agree_on_hit dist_topology link_ab
    (by simp [dist_topology]) 5 hd⟩

/-! Claim C5. -/

/-- C5 counterexample: the sidecar of the chain topology misses the
`of:a — of:b` link, the A* and GPU builders default its weight to `1.0` as
the claim says, but the Dijkstra-CPU builder assigns `10.0`, so not every
backend uses the default `1.0`. -/
theorem c5_cpu_default_is_ten :
    find_distance chain_topology.topology_data (clean_dpid link_ab.src.device)
        (clean_dpid link_ab.dst.device) = none ∧
    link_weight chain_topology link_ab = 1 ∧
    pycuda_link_weight chain_topology link_ab = 1 ∧
    dijkstra_link_weight chain_topology link_ab = 10 ∧
    (10 : ℚ) ≠ 1 := by
  refine ⟨by with_unfolding_all rfl, by with_unfolding_all rfl, by with_unfolding_all rfl,
    by with_unfolding_all rfl, by norm_num⟩

/-- C5 as amended: on a sidecar miss the A* and GPU backends give the link
the default weight `1.0`, while the Dijkstra-CPU backend gives it `10.0`. -/
theorem c5_default_weights_on_miss (t : Topology) (l : Link) (_hl : l ∈ t.links)
    (hm : find_distance t.topology_data (clean_dpid l.src.device) (clean_dpid l.dst.device) =
      none) :
    link_weight t l = 1 ∧ pycuda_link_weight t l = 1 ∧ dijkstra_link_weight t l = 10 := by
  rw [link_weight, pycuda_link_weight, dijkstra_link_weight, hm]
  simp

/-- C5 witness: the amended statement applied to the chain topology. -/
theorem c5_default_weights_on_miss_witness :
    find_distance chain_topology.topology_data (clean_dpid link_ba.src.device)
        (clean_dpid link_ba.dst.device) = none ∧
    link_ba ∈ chain_topology.links ∧
    (link_weight chain_topology link_ba = 1 ∧ pycuda_link_weight chain_topology link_ba = 1 ∧
      dijkstra_link_weight chain_topology link_ba = 10) := by
  have hm : find_distance chain_topology.topology_data (clean_dpid link_ba.src.device)
      (clean_dpid link_ba.dst.device) = none := by with_unfolding_all rfl
  exact ⟨hm, by simp [chain_topology], c5_default_weights_on_miss chain_topology link_ba
    (by simp [chain_topology]) hm⟩

/-! Claim C10. -/

/-- Whether a modelled controller call raised. -/
def exc_failed {α : Type} : Except String α → Bool
  | Except.error _ => true
  | Except.ok _ => false

/-- C10: when any of the three controller fetches raises, `update` still
returns normally (the embedding's `Except.ok` — the Python `except` clause
swallows the exception) and the state keeps empty `hosts`, `switches` and
`links` lists: the previously loaded topology listings are discarded. -/
theorem c10_fetch_error_resets_topology (prev : RouterState)
    (fh : Except String (List Host)) (fs : Except String (List String))
    (fl : Except String (List Link))
    (herr : exc_failed fh = true ∨ exc_failed fs = true ∨ exc_failed fl = true) :
    update prev fh fs fl =
      Except.ok { prev with hosts := [], switches := [], links := [] } := by
  cases fh with
  | error e => rfl
  | ok hosts =>
    cases fs with
    | error e => rfl
    | ok switches =>
      cases fl with
      | error e => rfl
      | ok links =>
        exfalso
        simp [exc_failed] at herr

/-- C10 witness: a failing hosts fetch against a previously loaded state. -/
theorem c10_fetch_error_resets_topology_witness :
    exc_failed (Except.error "ConnectionError" : Except String (List Host)) = true ∧
    update ⟨[host_h1], ["of:a"], [link_ab], ⟨[], [], [], []⟩⟩
        (Except.error "ConnectionError") (Except.ok ["of:a"]) (Except.ok [link_ab]) =
      Except.ok ⟨[], [], [], ⟨[], [], [], []⟩⟩ := by
  refine ⟨rfl, ?_⟩
  exact c10_fetch_error_resets_topology _ _ _ _ (Or.inl rfl)

/-! Claim C7. -/

/-- A flow the route compiler itself installed (ONOS books REST-installed
flows under the REST app). -/
def flow_mine : OnosFlow := ⟨"0x1", "org.onosproject.rest"⟩

/-- A flow belonging to a third application. -/
def flow_other : OnosFlow := ⟨"0x2", "org.onosproject.fwd"⟩

/-- A flow owned by the controller core. -/
def flow_core : OnosFlow := ⟨"0x3", "org.onosproject.core"⟩

/-- A controller flow table with one switch carrying all three flows. -/
def flow_table : List (String × List OnosFlow) :=
  [("of:1", [flow_mine, flow_other, flow_core])]

/-- C7 counterexample: `delete_routes` removes the system's own flow but
also the flow of the unrelated app `org.onosproject.fwd` — only the
controller-core flow survives, so flows of other `appId`s are not left
unchanged. -/
theorem c7_third_party_flows_deleted :
    delete_all_flows flow_table = [("of:1", [flow_core])] ∧
    flow_other ∈ (flow_table.map Prod.snd).flatten ∧
    ¬ flow_other.appId = flow_mine.appId ∧
    ¬ flow_other.appId = "org.onosproject.core" ∧
    ¬ flow_other ∈ ((delete_all_flows flow_table).map Prod.snd).flatten := by
  refine ⟨by with_unfolding_all rfl, by decide, by decide, by decide, by decide⟩

/-- C7 as amended: provided flow ids are unique per device (as the
controller guarantees), `delete_routes` leaves exactly the flows whose
`appId` is `org.onosproject.core`: the system's own flows are gone, and so
are those of every other non-core application. -/
theorem c7_only_core_flows_survive (table : List (String × List OnosFlow))
    (hids : ∀ dev ∈ table, (dev.2.map (fun f => f.id)).Nodup) :
    delete_all_flows table =
      table.map (fun dev =>
        (dev.1, dev.2.filter (fun f => decide (f.appId = "org.onosproject.core")))) := by
  rw [delete_all_flows]
  apply List.map_congr_left
  intro dev hdev
  have hnd := hids dev hdev
  refine congrArg (fun fs => (dev.1, fs)) ?_
  apply List.filter_congr
  intro f hf
  apply decide_eq_decide.mpr
  constructor
  · intro hnot
    by_contra hne
    apply hnot
    apply List.mem_map.mpr
    exact ⟨f, List.mem_filter.mpr ⟨hf, by simpa using hne⟩, rfl⟩
  · intro hcore hmem
    rcases List.mem_map.mp hmem with ⟨f2, hf2, hid⟩
    rcases List.mem_filter.mp hf2 with ⟨hf2m, hne2⟩
    have : f2 = f := List.inj_on_of_nodup_map hnd hf2m hf hid
    subst this
    simp [hcore] at hne2

/-- C7 witness: the amended statement applied to the three-flow table. -/
theorem c7_only_core_flows_survive_witness :
    (∀ dev ∈ flow_table, (dev.2.map (fun f => f.id)).Nodup) ∧
    delete_all_flows flow_table =
      flow_table.map (fun dev =>
        (dev.1, dev.2.filter (fun f => decide (f.appId = "org.onosproject.core")))) := by
  have hids : ∀ dev ∈ flow_table, (dev.2.map (fun f => f.id)).Nodup := by decide
  exact ⟨hids, c7_only_core_flows_survive flow_table hids⟩

/-! Claim C3. -/

/-- The freshly constructed router state (empty listings and tables). -/
def state0 : RouterState := ⟨[], [], [], ⟨[], [], [], []⟩⟩

/-- C3 counterexample: `update` completes normally in both scenarios the
claim says must fail.  With one host and an empty link listing it returns
the loaded state, and with a host whose location names the unknown switch
`of:zz` (absent from the switch set) it also returns the loaded state —
no `TopologyIncomplete` failure exists in the code path. -/
theorem c3_update_completes_on_incomplete_topology :
    update state0 (Except.ok [host_h1]) (Except.ok ["of:a"]) (Except.ok []) =
      Except.ok ⟨[host_h1], ["of:a"], [],
        ⟨[("00:01", "10.0.0.1")], [("00:01", "of:a", "1")], [(("of:a", "00:01"), "1")],
          ["of:a"]⟩⟩ ∧
    update state0 (Except.ok [host_h1]) (Except.ok ["of:zz"]) (Except.ok [link_ab, link_ba]) =
      Except.ok ⟨[host_h1], ["of:zz"], [link_ab, link_ba],
        ⟨[("00:01", "10.0.0.1")], [("00:01", "of:a", "1")],
          [(("of:a", "of:b"), "3"), (("of:b", "of:a"), "3"), (("of:a", "00:01"), "1")],
          ["of:zz"]⟩⟩ ∧
    validate_hosts_connectivity [host_h1] ["of:zz"] = false := by
  refine ⟨by with_unfolding_all rfl, by with_unfolding_all rfl, by decide⟩

/-- C3 as amended: `update` never raises — it always returns normally for
every fetch outcome; a host pointing at an unknown switch only makes
`validate_hosts_connectivity` return `False` (which `update` discards after
logging); and the hosts-present/links-empty condition surfaces only later,
as the `ValueError "No switch links found"` of `build_graph`. -/
theorem c3_update_never_fails :
    (∀ (prev : RouterState) (fh : Except String (List Host))
        (fs : Except String (List String)) (fl : Except String (List Link)),
      ∃ s, update prev fh fs fl = Except.ok s) ∧
    (∀ (hosts : List Host) (switches : List String) (h : Host) (loc : HostLocation),
      h ∈ hosts → h.locations.head? = some loc → loc.elementId ∉ switches →
      validate_hosts_connectivity hosts switches = false) ∧
    (∀ t : Topology, ¬ t.hosts = [] → t.links = [] → t.topology_data.isSome →
      (t.hosts.any fun h => h.locations.isEmpty) = false →
      build_graph t = Except.error "No switch links found") := by
  refine ⟨?_, ?_, ?_⟩
  · intro prev fh fs fl
    rcases hu : update_attempt fh fs fl with e | s
    · exact ⟨_, by rw [update, hu]⟩
    · exact ⟨s, by rw [update, hu]⟩
  · intro hosts switches h loc hmem hloc hnot
    cases hv : validate_hosts_connectivity hosts switches with
    | false => rfl
    | true =>
      exfalso
      rw [validate_hosts_connectivity, List.all_eq_true] at hv
      have hh := hv h hmem
      rcases hl : h.locations with _ | ⟨l0, tl⟩
      · rw [hl] at hloc
        simp at hloc
      · rw [hl] at hloc hh
        simp at hloc hh
        subst hloc
        exact hnot hh
  · intro t h1 h2 h3 h4
    have h3' : t.topology_data.isNone = false := by
      rcases ht : t.topology_data with _ | td
      · rw [ht] at h3
        simp at h3
      · rfl
    rw [build_graph]
    rw [if_neg (by simp [h3']), if_neg (by simp [List.isEmpty_iff]; exact h1),
      if_neg (by simp [h4]), if_pos (by simp [h2])]

/-- C3 witness: the amended statement applied to concrete inputs — a
successful update, the unknown-switch validation failure, and the chain
topology with its links removed. -/
theorem c3_update_never_fails_witness :
    (∃ s, update state0 (Except.ok [host_h1]) (Except.ok ["of:a"]) (Except.ok []) =
      Except.ok s) ∧
    validate_hosts_connectivity [host_h1] ["of:zz"] = false ∧
    build_graph ⟨[host_h1, host_h2], ["of:a", "of:b"], [], some ⟨[]⟩⟩ =
      Except.error "No switch links found" := by
  refine ⟨c3_update_never_fails.1 state0 _ _ _, ?_, ?_⟩
  · exact c3_update_never_fails.2.1 [host_h1] ["of:zz"] host_h1 ⟨"of:a", "1"⟩
      (by simp) (by with_unfolding_all rfl) (by decide)
  · exact c3_update_never_fails.2.2 _ (by simp) rfl (by with_unfolding_all rfl) (by decide)

/-! Claim C4. -/

/-- Host `h2` relocated to the shared switch `of:a`, port 2. -/
def host_h2a : Host := ⟨"00:02", ["10.0.0.2"], [⟨"of:a", "2"⟩]⟩

/-- The claim's scenario: two hosts with distinct IPs on one single switch
(so the link listing is empty). -/
def single_switch_topology : Topology := ⟨[host_h1, host_h2a], ["of:a"], [], some ⟨[]⟩⟩

/-- The lookups `update` builds for the single-switch topology. -/
def single_switch_lookups : Lookups :=
  ⟨[("00:01", "10.0.0.1"), ("00:02", "10.0.0.2")],
   [("00:01", "of:a", "1"), ("00:02", "of:a", "2")],
   [(("of:a", "00:01"), "1"), (("of:a", "00:02"), "2")], ["of:a"]⟩

/-- C4 counterexample: with two distinct-IP hosts on the same single switch,
route computation does not return quietly — `build_graph` raises
`No switch links found` (the link listing is empty), so
`install_all_routes` fails instead of emitting zero rules with zero
errors. -/
theorem c4_single_switch_raises :
    build_lookups single_switch_topology.hosts single_switch_topology.links
        single_switch_topology.switches = Except.ok single_switch_lookups ∧
    ¬ dict_get single_switch_lookups.mac_to_ip "00:01" =
        dict_get single_switch_lookups.mac_to_ip "00:02" ∧
    install_all_routes single_switch_topology single_switch_lookups find_path_model =
      Except.error "No switch links found" := by
  refine ⟨by with_unfolding_all rfl, by decide, by with_unfolding_all rfl⟩

/-- C4 as amended: with hosts present and no links, route computation
raises (so the claim's zero-error half fails); and where links do exist,
the host–switch–host path `[a, s, b]` of length 3 has the shared switch as
interior index 1, so the compiler emits exactly one rule per direction on
it — two rules, not zero. -/
theorem c4_same_switch_pair_rules :
    (∀ (t : Topology) (lk : Lookups) (fp : Finder), ¬ t.hosts = [] → t.links = [] →
      t.topology_data.isSome → ∃ e, install_all_routes t lk fp = Except.error e) ∧
    (∀ (pm : List ((String × String) × String)) (ss : List String) (a s b ipt opt : String),
      s ∈ ss → ¬ a = b → dict_get pm (s, a) = some ipt → dict_get pm (s, b) = some opt →
      ¬ ipt = "" → ¬ opt = "" →
      flows_for_path pm ss [a, s, b] a b =
        [⟨s, ipt, opt, DEFAULT_PRIORITY, b, a⟩, ⟨s, opt, ipt, DEFAULT_PRIORITY, a, b⟩]) := by
  constructor
  · intro t lk fp h1 h2 h3
    rw [install_all_routes]
    rcases hbg : build_graph t with e | g
    · exact ⟨e, rfl⟩
    · exfalso
      rw [build_graph] at hbg
      split_ifs at hbg
      simp_all
  · intro pm ss a s b ipt opt hs hab hip hop hipne hopne
    have hrev : ¬ ([a, s, b].reverse = [a, s, b]) := by
      simp
      intro hba
      exact absurd hba.symm hab
    rw [flows_for_path, if_neg hrev]
    have hdir1 : flows_for_direction pm ss [a, s, b] b a =
        [⟨s, ipt, opt, DEFAULT_PRIORITY, b, a⟩] := by
      rw [flows_for_direction]
      show (List.range' 1 1).filterMap _ = _
      simp [List.range', interior_flow, hip, hop, hs, hipne, hopne]
    have hdir2 : flows_for_direction pm ss [a, s, b].reverse a b =
        [⟨s, opt, ipt, DEFAULT_PRIORITY, a, b⟩] := by
      show flows_for_direction pm ss [b, s, a] a b = _
      rw [flows_for_direction]
      show (List.range' 1 1).filterMap _ = _
      simp [List.range', interior_flow, hip, hop, hs, hipne, hopne]
    rw [hdir1, hdir2]
    rfl

/-- C4 witness: part one at the single-switch topology, part two at the
shared-switch lookups with the two host ports. -/
theorem c4_same_switch_pair_rules_witness :
    (∃ e, install_all_routes single_switch_topology single_switch_lookups find_path_model =
      Except.error e) ∧
    flows_for_path single_switch_lookups.port_map single_switch_lookups.switches_set
        ["00:01", "of:a", "00:02"] "00:01" "00:02" =
      [⟨"of:a", "1", "2", DEFAULT_PRIORITY, "00:02", "00:01"⟩,
       ⟨"of:a", "2", "1", DEFAULT_PRIORITY, "00:01", "00:02"⟩] := by
  constructor
  · exact c4_same_switch_pair_rules.1 single_switch_topology single_switch_lookups
      find_path_model (by decide) rfl (by decide)
  · exact c4_same_switch_pair_rules.2 single_switch_lookups.port_map
      single_switch_lookups.switches_set "00:01" "of:a" "00:02" "1" "2"
      (by decide) (by decide) (by with_unfolding_all rfl) (by with_unfolding_all rfl)
      (by decide) (by decide)

/-! Claim C8. -/

/-- C8: `find_distance` returns 0 on equal arguments; otherwise it returns
the value under `"a-b"` when present, else the value under `"b-a"` when
present, else `none`; and when exactly one key order is present the result
is independent of the argument order. -/
theorem c8_find_distance_lookup (dists : List (String × ℚ)) (a b : String) (hne : ¬ a = b) :
    find_distance (some ⟨dists⟩) a a = some 0 ∧
    (∀ v, dict_get dists (a ++ "-" ++ b) = some v →
      find_distance (some ⟨dists⟩) a b = some v) ∧
    (∀ v, dict_get dists (a ++ "-" ++ b) = none → dict_get dists (b ++ "-" ++ a) = some v →
      find_distance (some ⟨dists⟩) a b = some v) ∧
    (dict_get dists (a ++ "-" ++ b) = none → dict_get dists (b ++ "-" ++ a) = none →
      find_distance (some ⟨dists⟩) a b = none) ∧
    (¬ (dict_get dists (a ++ "-" ++ b)).isSome = (dict_get dists (b ++ "-" ++ a)).isSome →
      find_distance (some ⟨dists⟩) a b = find_distance (some ⟨dists⟩) b a) := by
  have hne' : ¬ b = a := fun hx => hne hx.symm
  refine ⟨by simp [find_distance], ?_, ?_, ?_, ?_⟩
  · intro v hv
    rw [find_distance, if_neg hne, hv]
  · intro v h1 h2
    rw [find_distance, if_neg hne, h1, h2]
  · intro h1 h2
    rw [find_distance, if_neg hne, h1, h2]
  · intro hx
    rcases h1 : dict_get dists (a ++ "-" ++ b) with _ | v1 <;>
      rcases h2 : dict_get dists (b ++ "-" ++ a) with _ | v2
    · rw [h1, h2] at hx
      simp at hx
    · rw [find_distance, if_neg hne, h1, h2, find_distance, if_neg hne', h2]
    · rw [find_distance, if_neg hne, h1, find_distance, if_neg hne', h2, h1]
    · rw [h1, h2] at hx
      simp at hx

/-- C8 witness: the lookup with only the key `"x-y"` present answers `5`
from both argument orders, and equal arguments give 0. -/
theorem c8_find_distance_lookup_witness :
    find_distance (some ⟨[("x-y", 5)]⟩) "x" "x" = some 0 ∧
    find_distance (some ⟨[("x-y", 5)]⟩) "x" "y" = some 5 ∧
    find_distance (some ⟨[("x-y", 5)]⟩) "x" "y" =
      find_distance (some ⟨[("x-y", 5)]⟩) "y" "x" := by
  refine ⟨(c8_find_distance_lookup [("x-y", 5)] "x" "y" (by decide)).1, ?_, ?_⟩
  · exact (c8_find_distance_lookup [("x-y", 5)] "x" "y" (by decide)).2.1 5
      (by with_unfolding_all rfl)
  · exact (c8_find_distance_lookup [("x-y", 5)] "x" "y" (by decide)).2.2.2.2 (by decide)

/-! Membership lemmas for the flow compiler and the route pipeline. -/

theorem mem_concat_map {α β : Type} {f : α → List β} {l : List α} {a : α} {b : β}
    (ha : a ∈ l) (hb : b ∈ f a) : b ∈ concat_map f l := by
  induction l with
  | nil => simp at ha
  | cons x xs ih =>
    rw [concat_map]
    rcases List.mem_cons.mp ha with hx | hm
    · subst hx
      exact List.mem_append_left _ hb
    · exact List.mem_append_right _ (ih hm)

theorem concat_map_mem_elim {α β : Type} {f : α → List β} {l : List α} {b : β}
    (hb : b ∈ concat_map f l) : ∃ a ∈ l, b ∈ f a := by
  induction l with
  | nil => simp [concat_map] at hb
  | cons x xs ih =>
    rw [concat_map] at hb
    rcases List.mem_append.mp hb with hx | hm
    · exact ⟨x, List.mem_cons_self x xs, hx⟩
    · rcases ih hm with ⟨a, hal, hb2⟩
      exact ⟨a, List.mem_cons_of_mem _ hal, hb2⟩

theorem combinations2_length_le {α : Type} {l : List α} {pr : α × α}
    (h : pr ∈ combinations2 l) : 2 ≤ l.length := by
  induction l with
  | nil => simp [combinations2] at h
  | cons x xs ih =>
    rw [combinations2] at h
    rcases List.mem_append.mp h with hm | hm
    · rcases List.mem_map.mp hm with ⟨y, hy, _⟩
      cases xs with
      | nil => simp at hy
      | cons z zs => simp
    · have := ih hm
      simp
      omega

theorem flows_for_direction_intro (pm : List ((String × String) × String)) (ss : List String)
    {p : List String} (dst src : String) {i : ℕ} {prev cur next ipt opt : String}
    (hi1 : 1 ≤ i) (hi2 : i + 1 < p.length)
    (hprev : p.get? (i - 1) = some prev) (hcur : p.get? i = some cur)
    (hnext : p.get? (i + 1) = some next)
    (hsw : cur ∈ ss) (hip : dict_get pm (cur, prev) = some ipt)
    (hop : dict_get pm (cur, next) = some opt)
    (hipne : ¬ ipt = "") (hopne : ¬ opt = "") :
    (⟨cur, ipt, opt, DEFAULT_PRIORITY, dst, src⟩ : FlowTuple) ∈
      flows_for_direction pm ss p dst src := by
  rw [flows_for_direction]
  apply List.mem_filterMap.mpr
  refine ⟨i, ?_, ?_⟩
  · apply List.mem_range'_1.mpr
    omega
  · rw [interior_flow, hprev, hcur, hnext]
    dsimp only
    rw [if_pos hsw, hip, hop]
    dsimp only
    rw [if_neg (by tauto)]

theorem flows_for_direction_elim {pm : List ((String × String) × String)} {ss : List String}
    {p : List String} {dst src : String} {f : FlowTuple}
    (hf : f ∈ flows_for_direction pm ss p dst src) :
    ∃ i prev cur next ipt opt, 1 ≤ i ∧ i + 1 < p.length ∧
      p.get? (i - 1) = some prev ∧ p.get? i = some cur ∧ p.get? (i + 1) = some next ∧
      cur ∈ ss ∧ dict_get pm (cur, prev) = some ipt ∧ dict_get pm (cur, next) = some opt ∧
      ¬ ipt = "" ∧ ¬ opt = "" ∧ f = ⟨cur, ipt, opt, DEFAULT_PRIORITY, dst, src⟩ := by
  rw [flows_for_direction] at hf
  rcases List.mem_filterMap.mp hf with ⟨i, hmem, hfi⟩
  have hrange := List.mem_range'_1.mp hmem
  rw [interior_flow] at hfi
  rcases hprev : p.get? (i - 1) with _ | prev <;> rw [hprev] at hfi
  · cases hfi
  rcases hcur : p.get? i with _ | cur <;> rw [hcur] at hfi
  · cases hfi
  rcases hnext : p.get? (i + 1) with _ | next <;> rw [hnext] at hfi
  · cases hfi
  dsimp only at hfi
  by_cases hsw : cur ∈ ss
  · rw [if_pos hsw] at hfi
    rcases hip : dict_get pm (cur, prev) with _ | ipt <;> rw [hip] at hfi
    · cases hfi
    rcases hop : dict_get pm (cur, next) with _ | opt <;> rw [hop] at hfi
    · cases hfi
    dsimp only at hfi
    by_cases hemp : ipt = "" ∨ opt = ""
    · rw [if_pos hemp] at hfi
      cases hfi
    · rw [if_neg hemp] at hfi
      have hi2 : i + 1 < p.length := by
        have := List.get?_eq_some.mp hnext
        exact this.1
      refine ⟨i, prev, cur, next, ipt, opt, hrange.1, hi2, hprev, hcur, hnext, hsw, hip, hop,
        ?_, ?_, ?_⟩
      · intro hx
        exact hemp (Or.inl hx)
      · intro hx
        exact hemp (Or.inr hx)
      · cases hfi
        rfl
  · rw [if_neg hsw] at hfi
    cases hfi

theorem lookups_switches_eq {t : Topology} {lk : Lookups}
    (hlk : build_lookups t.hosts t.links t.switches = Except.ok lk) :
    lk.switches_set = t.switches := by
  rw [build_lookups_ok hlk]

theorem build_graph_edge_cases {t : Topology} {g : List Edge}
    (hg : build_graph t = Except.ok g) {e : Edge} (he : e ∈ g) :
    (∃ h0 ∈ t.hosts, ∃ loc tl, h0.locations = loc :: tl ∧
      e = (h0.mac, loc.elementId, HOST_SWITCH_WEIGHT)) ∨
    (∃ l ∈ t.links, e = (l.src.device, l.dst.device, link_weight t l)) := by
  rw [build_graph_ok hg] at he
  rcases List.mem_append.mp he with hm | hm
  · left
    rcases List.mem_filterMap.mp hm with ⟨h0, hh0, hhe⟩
    rw [host_edge] at hhe
    rcases hl0 : h0.locations with _ | ⟨loc, tl⟩
    · rw [hl0] at hhe
      cases hhe
    · rw [hl0] at hhe
      simp at hhe
      exact ⟨h0, hh0, loc, tl, hl0, hhe.symm⟩
  · right
    rcases List.mem_map.mp hm with ⟨l, hl, he2⟩
    exact ⟨l, hl, he2.symm⟩

theorem port_map_value_nonempty {t : Topology} {lk : Lookups}
    (hlk : build_lookups t.hosts t.links t.switches = Except.ok lk)
    (hlp : ∀ l ∈ t.links, ¬ l.src.port = "")
    (hhp : ∀ h ∈ t.hosts, ∀ loc ∈ h.locations, ¬ loc.port = "")
    {k : String × String} {v : String} (h : dict_get lk.port_map k = some v) : ¬ v = "" := by
  have hport := dict_get_mem h
  rw [build_lookups_ok hlk] at hport
  rcases List.mem_append.mp hport with hm | hm
  · rcases List.mem_map.mp hm with ⟨l, hl, he⟩
    have hne := hlp l hl
    have : l.src.port = v := congrArg Prod.snd he
    rw [← this]
    exact hne
  · rcases List.mem_filterMap.mp hm with ⟨h0, hh0, he⟩
    rcases hl0 : h0.locations with _ | ⟨loc, tl⟩
    · rw [hl0] at he
      cases he
    · rw [hl0] at he
      simp at he
      have hlocmem : loc ∈ h0.locations := by
        rw [hl0]
        exact List.mem_cons_self _ _
      have hne := hhp h0 hh0 loc hlocmem
      have : loc.port = v := he.2
      rw [← this]
      exact hne

theorem port_exists_for_path_edge {t : Topology} {lk : Lookups} {g : List Edge} {a b : String}
    (hlk : build_lookups t.hosts t.links t.switches = Except.ok lk)
    (hg : build_graph t = Except.ok g)
    (hsymm : ∀ l ∈ t.links, ∃ l2 ∈ t.links,
      l2.src.device = l.dst.device ∧ l2.dst.device = l.src.device)
    (hlp : ∀ l ∈ t.links, ¬ l.src.port = "")
    (hhp : ∀ h ∈ t.hosts, ∀ loc ∈ h.locations, ¬ loc.port = "")
    (hdisj : ∀ h ∈ t.hosts, ¬ h.mac ∈ t.switches)
    (hw : (graph_weight g a b).isSome = true)
    (ha : a ∈ lk.switches_set) :
    ∃ pp, dict_get lk.port_map (a, b) = some pp ∧ ¬ pp = "" := by
  have hasw : a ∈ t.switches := by
    rw [← lookups_switches_eq hlk]
    exact ha
  have hpm : lk.port_map =
      t.links.map (fun l => ((l.src.device, l.dst.device), l.src.port))
        ++ t.hosts.filterMap
            (fun h => h.locations.head?.map (fun loc => ((loc.elementId, h.mac), loc.port))) := by
    rw [build_lookups_ok hlk]
  have hkey : ∃ v, ((a, b), v) ∈ lk.port_map := by
    rcases Option.isSome_iff_exists.mp hw with ⟨w, hwv⟩
    rcases graph_weight_mem hwv with hm | hm
    · rcases build_graph_edge_cases hg hm with ⟨h0, hh0, loc, tl, hl0, he⟩ | ⟨l, hl, he⟩
      · exfalso
        have : a = h0.mac := congrArg (fun e => e.1) he
        rw [this] at hasw
        exact hdisj h0 hh0 hasw
      · refine ⟨l.src.port, ?_⟩
        rw [hpm]
        apply List.mem_append_left
        apply List.mem_map.mpr
        refine ⟨l, hl, ?_⟩
        have h1 : a = l.src.device := congrArg (fun e => e.1) he
        have h2 : b = l.dst.device := congrArg (fun e => e.2.1) he
        rw [h1, h2]
    · rcases build_graph_edge_cases hg hm with ⟨h0, hh0, loc, tl, hl0, he⟩ | ⟨l, hl, he⟩
      · refine ⟨loc.port, ?_⟩
        rw [hpm]
        apply List.mem_append_right
        apply List.mem_filterMap.mpr
        refine ⟨h0, hh0, ?_⟩
        rw [hl0]
        have h1 : b = h0.mac := congrArg (fun e => e.1) he
        have h2 : a = loc.elementId := congrArg (fun e => e.2.1) he
        simp [h1, h2]
      · have h1 : b = l.src.device := congrArg (fun e => e.1) he
        have h2 : a = l.dst.device := congrArg (fun e => e.2.1) he
        rcases hsymm l hl with ⟨l2, hl2, hsrc, hdst⟩
        refine ⟨l2.src.port, ?_⟩
        rw [hpm]
        apply List.mem_append_left
        apply List.mem_map.mpr
        refine ⟨l2, hl2, ?_⟩
        rw [hsrc, hdst, ← h1, ← h2]
  rcases hkey with ⟨v0, hv0⟩
  have hsome := dict_get_isSome_of_mem hv0
  rcases Option.isSome_iff_exists.mp hsome with ⟨pp, hpp⟩
  exact ⟨pp, hpp, port_map_value_nonempty hlk hlp hhp hpp⟩

theorem chain'_get?_rel {α : Type} {R : α → α → Prop} {l : List α}
    (h : List.Chain' R l) {j : ℕ} {a b : α}
    (ha : l.get? j = some a) (hb : l.get? (j + 1) = some b) : R a b := by
  have hjb := (List.get?_eq_some.mp hb).1
  have hja : j < l.length := by omega
  have hr := List.chain'_iff_get.mp h j (by omega)
  have ea : l.get? j = some (l.get ⟨j, hja⟩) := List.get?_eq_get hja
  have eb : l.get? (j + 1) = some (l.get ⟨j + 1, hjb⟩) := List.get?_eq_get hjb
  rw [ha] at ea
  rw [hb] at eb
  have ea2 := Option.some.inj ea
  have eb2 := Option.some.inj eb
  rw [ea2, eb2]
  exact hr

/-- The host MACs the route loop iterates over: one representative per IP. -/
def route_macs (t : Topology) : List String :=
  match unique_hosts t.hosts with
  | Except.ok uh => uh.map (fun h => h.mac)
  | Except.error _ => []

/-- C2 as amended: restricted to the per-IP representative hosts the engine
actually routes (pairs drawn from `route_macs`).  For such a pair with
distinct IPs whose path search succeeds, every interior switch of the chosen
path carries both direction rules in the installed flow set, provided the
link listing is symmetric, ports are non-empty, link endpoints are switches
distinct from host MACs — the well-formedness the controller guarantees. -/
theorem c2_pair_rules_bidirectional
    (t : Topology) (lk : Lookups) (g : List Edge) (fp : Finder) (F : List FlowTuple)
    (p : List String) (h1 h2 : String) (i : ℕ) (cur : String)
    (hlk : build_lookups t.hosts t.links t.switches = Except.ok lk)
    (hg : build_graph t = Except.ok g)
    (hins : install_all_routes t lk fp = Except.ok F)
    (hpair : (h1, h2) ∈ combinations2 (route_macs t))
    (hips : ¬ dict_get lk.mac_to_ip h1 = dict_get lk.mac_to_ip h2)
    (hfp : fp g h1 h2 = some p)
    (hhead : p.head? = some h1) (hlast : p.getLast? = some h2)
    (hchain : List.Chain' (fun a b => (graph_weight g a b).isSome = true) p)
    (hsymm : ∀ l ∈ t.links, ∃ l2 ∈ t.links,
      l2.src.device = l.dst.device ∧ l2.dst.device = l.src.device)
    (hlp : ∀ l ∈ t.links, ¬ l.src.port = "")
    (hhp : ∀ h ∈ t.hosts, ∀ loc ∈ h.locations, ¬ loc.port = "")
    (hdisj : ∀ h ∈ t.hosts, ¬ h.mac ∈ t.switches)
    (hi1 : 1 ≤ i) (hi2 : i + 1 < p.length)
    (hcur : p.get? i = some cur) (hsw : cur ∈ lk.switches_set) :
    ∃ prev next ipt opt,
      p.get? (i - 1) = some prev ∧ p.get? (i + 1) = some next ∧
      dict_get lk.port_map (cur, prev) = some ipt ∧
      dict_get lk.port_map (cur, next) = some opt ∧
      (⟨cur, ipt, opt, DEFAULT_PRIORITY, h2, h1⟩ : FlowTuple) ∈ F ∧
      (⟨cur, opt, ipt, DEFAULT_PRIORITY, h1, h2⟩ : FlowTuple) ∈ F := by
  rcases hprevo : p.get? (i - 1) with _ | prev
  · exfalso
    have := List.get?_eq_none.mp hprevo
    omega
  rcases hnexto : p.get? (i + 1) with _ | next
  · exfalso
    have := List.get?_eq_none.mp hnexto
    omega
  have hedge1 : (graph_weight g prev cur).isSome = true := by
    refine chain'_get?_rel hchain hprevo ?_
    rw [show i - 1 + 1 = i by omega]
    exact hcur
  have hedge2 : (graph_weight g cur next).isSome = true :=
    chain'_get?_rel hchain hcur hnexto
  have hw1 : (graph_weight g cur prev).isSome = true := by
    rw [graph_weight_comm]
    exact hedge1
  rcases port_exists_for_path_edge hlk hg hsymm hlp hhp hdisj hw1 hsw with ⟨ipt, hip, hipne⟩
  rcases port_exists_for_path_edge hlk hg hsymm hlp hhp hdisj hedge2 hsw with ⟨opt, hop, hopne⟩
  have hne12 : ¬ h1 = h2 := by
    intro he
    rw [he] at hips
    exact hips rfl
  have hrevne : ¬ (p.reverse = p) := by
    intro he
    have hx : p.reverse.head? = p.head? := by rw [he]
    rw [List.head?_reverse, hlast, hhead] at hx
    exact hne12 (Option.some.inj hx).symm
  have hmem1 : (⟨cur, ipt, opt, DEFAULT_PRIORITY, h2, h1⟩ : FlowTuple) ∈
      flows_for_path lk.port_map lk.switches_set p h1 h2 := by
    rw [flows_for_path]
    apply List.mem_append_left
    exact flows_for_direction_intro _ _ h2 h1 hi1 hi2 hprevo hcur hnexto hsw hip hop hipne hopne
  have hrevcur : p.reverse.get? (p.length - 1 - i) = some cur := by
    rw [List.get?_reverse (by omega), show p.length - 1 - (p.length - 1 - i) = i by omega]
    exact hcur
  have hrevprev : p.reverse.get? (p.length - 1 - i - 1) = some next := by
    rw [List.get?_reverse (by omega),
      show p.length - 1 - (p.length - 1 - i - 1) = i + 1 by omega]
    exact hnexto
  have hrevnext : p.reverse.get? (p.length - 1 - i + 1) = some prev := by
    rw [List.get?_reverse (by omega),
      show p.length - 1 - (p.length - 1 - i + 1) = i - 1 by omega]
    exact hprevo
  have hmem2 : (⟨cur, opt, ipt, DEFAULT_PRIORITY, h1, h2⟩ : FlowTuple) ∈
      flows_for_path lk.port_map lk.switches_set p h1 h2 := by
    rw [flows_for_path]
    apply List.mem_append_right
    rw [if_neg hrevne]
    refine flows_for_direction_intro _ _ h1 h2 (by omega) ?_ hrevprev hrevcur hrevnext hsw
      hop hip hopne hipne
    rw [List.length_reverse]
    omega
  rw [install_all_routes, hg] at hins
  dsimp only at hins
  rcases huh : unique_hosts t.hosts with e | uh
  · rw [huh] at hins
    cases hins
  · rw [huh] at hins
    dsimp only at hins
    have hroute : route_macs t = uh.map (fun h => h.mac) := by
      rw [route_macs, huh]
    rw [hroute] at hpair
    by_cases hlen2 : (uh.map (fun h => h.mac)).length < 2
    · exfalso
      have := combinations2_length_le hpair
      omega
    · rw [if_neg hlen2] at hins
      cases hins
      have hpf : pair_flows lk g fp (h1, h2) =
          flows_for_path lk.port_map lk.switches_set p h1 h2 := by
        rw [pair_flows]
        dsimp only
        rw [if_neg hips, hfp]
      refine ⟨prev, next, ipt, opt, rfl, rfl, hip, hop, ?_, ?_⟩
      · exact mem_concat_map hpair (by rw [hpf]; exact hmem1)
      · exact mem_concat_map hpair (by rw [hpf]; exact hmem2)

/-- The lookups `update` builds for `dist_topology`. -/
def dist_lookups : Lookups :=
  ⟨[("00:01", "10.0.0.1"), ("00:02", "10.0.0.2")],
   [("00:01", "of:a", "1"), ("00:02", "of:b", "1")],
   [(("of:a", "of:b"), "3"), (("of:b", "of:a"), "3"), (("of:a", "00:01"), "1"),
    (("of:b", "00:02"), "1")], ["of:a", "of:b"]⟩

/-- The graph `build_graph` returns for `dist_topology`. -/
def dist_graph : List Edge :=
  [("00:01", "of:a", 1/10), ("00:02", "of:b", 1/10), ("of:a", "of:b", 5), ("of:b", "of:a", 5)]

/-- The rule set the pipeline compiles for `dist_topology`. -/
def dist_flows : List FlowTuple :=
  [⟨"of:a", "1", "3", 10, "00:02", "00:01"⟩, ⟨"of:b", "3", "1", 10, "00:02", "00:01"⟩,
   ⟨"of:b", "1", "3", 10, "00:01", "00:02"⟩, ⟨"of:a", "3", "1", 10, "00:01", "00:02"⟩]

/-- C2 witness: the amended statement applied to the two-switch chain at
interior index 1 of the chosen path. -/
theorem c2_pair_rules_bidirectional_witness :
    ∃ prev next ipt opt,
      (["00:01", "of:a", "of:b", "00:02"] : List String).get? 0 = some prev ∧
      (["00:01", "of:a", "of:b", "00:02"] : List String).get? 2 = some next ∧
      dict_get dist_lookups.port_map ("of:a", prev) = some ipt ∧
      dict_get dist_lookups.port_map ("of:a", next) = some opt ∧
      (⟨"of:a", ipt, opt, DEFAULT_PRIORITY, "00:02", "00:01"⟩ : FlowTuple) ∈ dist_flows ∧
      (⟨"of:a", opt, ipt, DEFAULT_PRIORITY, "00:01", "00:02"⟩ : FlowTuple) ∈ dist_flows := by
  exact c2_pair_rules_bidirectional dist_topology dist_lookups dist_graph find_path_model
    dist_flows ["00:01", "of:a", "of:b", "00:02"] "00:01" "00:02" 1 "of:a"
    (by with_unfolding_all rfl) (by with_unfolding_all rfl) (by with_unfolding_all rfl)
    (by decide) (by decide) (by with_unfolding_all rfl)
    rfl rfl
    (by
      refine List.chain'_cons.mpr ⟨?_, List.chain'_cons.mpr ⟨?_, List.chain'_cons.mpr
        ⟨?_, List.chain'_singleton _⟩⟩⟩
      · with_unfolding_all rfl
      · with_unfolding_all rfl
      · with_unfolding_all rfl)
    (by decide) (by decide) (by decide) (by decide)
    (by decide) (by decide) rfl (by decide)

/-! Claim C2 counterexample machinery. -/

/-- Host aliased on IP `10.0.0.1`, listed first (it loses the dedup). -/
def host_alias1 : Host := ⟨"00:0a", ["10.0.0.1"], [⟨"of:a", "1"⟩]⟩

/-- Second host carrying the same IP `10.0.0.1`, listed last (it wins). -/
def host_alias2 : Host := ⟨"00:0b", ["10.0.0.1"], [⟨"of:a", "2"⟩]⟩

/-- Host with the distinct IP `10.0.0.2` on the far switch. -/
def host_remote : Host := ⟨"00:0c", ["10.0.0.2"], [⟨"of:b", "1"⟩]⟩

/-- Topology with an IP-aliased host pair plus a remote host. -/
def alias_topology : Topology :=
  ⟨[host_alias1, host_alias2, host_remote], ["of:a", "of:b"], [link_ab, link_ba],
    some ⟨[("a-b", 2)]⟩⟩

/-- The lookups `update` builds for `alias_topology`. -/
def alias_lookups : Lookups :=
  ⟨[("00:0a", "10.0.0.1"), ("00:0b", "10.0.0.1"), ("00:0c", "10.0.0.2")],
   [("00:0a", "of:a", "1"), ("00:0b", "of:a", "2"), ("00:0c", "of:b", "1")],
   [(("of:a", "of:b"), "3"), (("of:b", "of:a"), "3"), (("of:a", "00:0a"), "1"),
    (("of:a", "00:0b"), "2"), (("of:b", "00:0c"), "1")], ["of:a", "of:b"]⟩

/-- The graph `build_graph` returns for `alias_topology`: note host `00:0a`
is a vertex of the graph, connected to everything. -/
def alias_graph : List Edge :=
  [("00:0a", "of:a", 1/10), ("00:0b", "of:a", 1/10), ("00:0c", "of:b", 1/10),
   ("of:a", "of:b", 2), ("of:b", "of:a", 2)]

/-- The rule set the pipeline compiles for `alias_topology`: only the
representative `00:0b` of IP `10.0.0.1` is routed. -/
def alias_flows : List FlowTuple :=
  [⟨"of:a", "2", "3", 10, "00:0c", "00:0b"⟩, ⟨"of:b", "3", "1", 10, "00:0c", "00:0b"⟩,
   ⟨"of:b", "1", "3", 10, "00:0b", "00:0c"⟩, ⟨"of:a", "3", "2", 10, "00:0b", "00:0c"⟩]

/-- C2 counterexample: hosts `00:0a` and `00:0c` have distinct IPs and the
graph connects them — the path search finds `00:0a – of:a – of:b – 00:0c`,
whose interior switches are `of:a` and `of:b` — yet the emitted flow set
contains no rule whatsoever with `eth_src = 00:0a`: host `00:0a` lost the
per-IP deduplication to `00:0b`, so the claimed h1→h2 rules are absent. -/
theorem c2_aliased_pair_missing_rules :
    build_lookups alias_topology.hosts alias_topology.links alias_topology.switches =
      Except.ok alias_lookups ∧
    build_graph alias_topology = Except.ok alias_graph ∧
    dict_get alias_lookups.mac_to_ip "00:0a" = some "10.0.0.1" ∧
    dict_get alias_lookups.mac_to_ip "00:0c" = some "10.0.0.2" ∧
    find_path_model alias_graph "00:0a" "00:0c" = some ["00:0a", "of:a", "of:b", "00:0c"] ∧
    install_all_routes alias_topology alias_lookups find_path_model =
      Except.ok alias_flows ∧
    alias_flows.all (fun f => !(decide (f.eth_src = "00:0a"))) = true := by
  refine ⟨by with_unfolding_all rfl, by with_unfolding_all rfl, by with_unfolding_all rfl,
    by with_unfolding_all rfl, by with_unfolding_all rfl, by with_unfolding_all rfl, by decide⟩

/-! Claim C9 machinery: the model path finder returns simple paths. -/

theorem mem_dedup_strings {x : String} : ∀ {l : List String}, x ∈ dedup_strings l ↔ x ∈ l := by
  intro l
  induction l with
  | nil => simp [dedup_strings]
  | cons y ys ih =>
    rw [dedup_strings]
    split_ifs with hy
    · rw [ih]
      constructor
      · exact fun h => List.mem_cons_of_mem _ h
      · intro h
        rcases List.mem_cons.mp h with he | hm
        · rw [he]
          exact hy
        · exact hm
    · constructor
      · intro h
        rcases List.mem_cons.mp h with he | hm
        · rw [he]
          exact List.mem_cons_self _ _
        · exact List.mem_cons_of_mem _ (ih.mp hm)
      · intro h
        rcases List.mem_cons.mp h with he | hm
        · rw [he]
          exact List.mem_cons_self _ _
        · exact List.mem_cons_of_mem _ (ih.mpr hm)

theorem dedup_strings_nodup : ∀ l : List String, (dedup_strings l).Nodup := by
  intro l
  induction l with
  | nil => exact List.nodup_nil
  | cons x xs ih =>
    rw [dedup_strings]
    split_ifs with hx
    · exact ih
    · exact List.nodup_cons.mpr ⟨fun hm => hx (mem_dedup_strings.mp hm), ih⟩

theorem simple_paths_sound (wfn : String → String → Option ℚ) :
    ∀ (fuel : ℕ) (allowed : List String) (c tgt : String) (p : List String),
      p ∈ simple_paths wfn allowed fuel c tgt → c ∉ allowed → allowed.Nodup →
      p.Nodup ∧ ∀ x ∈ p, x = c ∨ x ∈ allowed := by
  intro fuel
  induction fuel with
  | zero =>
    intro allowed c tgt p hp hc hnd
    rw [simple_paths] at hp
    split_ifs at hp
    · rcases List.mem_singleton.mp hp with rfl
      exact ⟨List.nodup_singleton c, by simp⟩
    · simp at hp
  | succ f ih =>
    intro allowed c tgt p hp hc hnd
    rw [simple_paths] at hp
    split_ifs at hp with hct
    · rcases List.mem_singleton.mp hp with rfl
      exact ⟨List.nodup_singleton c, by simp⟩
    · rcases concat_map_mem_elim hp with ⟨n, hn, hpn⟩
      have hnall : n ∈ allowed := (List.mem_filter.mp hn).1
      rcases List.mem_map.mp hpn with ⟨p2, hp2, hpe⟩
      have hcn : c ∉ allowed.erase n := fun hx => hc (List.mem_of_mem_erase hx)
      have hnde : (allowed.erase n).Nodup := hnd.erase n
      have hrec := ih (allowed.erase n) n tgt p2 hp2 (hnd.not_mem_erase) hnde
      subst hpe
      constructor
      · apply List.nodup_cons.mpr
        refine ⟨?_, hrec.1⟩
        intro hcp2
        rcases hrec.2 c hcp2 with he | hm
        · rw [he] at hc
          exact hc hnall
        · exact hcn hm
      · intro x hx
        rcases List.mem_cons.mp hx with he | hm
        · exact Or.inl he
        · rcases hrec.2 x hm with he | hmm
          · rw [he]
            exact Or.inr hnall
          · exact Or.inr (List.mem_of_mem_erase hmm)

theorem foldl_best_mem (g : List Edge) :
    ∀ (l : List (List String)) (acc : Option (List String)) (p : List String),
      List.foldl (fun best q =>
        match best with
        | none => some q
        | some b =>
          if path_cost (graph_weight g) q < path_cost (graph_weight g) b then some q
          else best) acc l = some p →
      acc = some p ∨ p ∈ l := by
  intro l
  induction l with
  | nil =>
    intro acc p h
    exact Or.inl h
  | cons x xs ih =>
    intro acc p h
    rw [List.foldl_cons] at h
    rcases ih _ p h with hacc | hmem
    · rcases acc with _ | b
      · dsimp only at hacc
        have : x = p := Option.some.inj hacc
        rw [← this]
        exact Or.inr (List.mem_cons_self x xs)
      · dsimp only at hacc
        split_ifs at hacc with hc
        · have : x = p := Option.some.inj hacc
          rw [← this]
          exact Or.inr (List.mem_cons_self x xs)
        · exact Or.inl hacc
    · exact Or.inr (List.mem_cons_of_mem _ hmem)

theorem find_path_model_nodup {g : List Edge} {a b : String} {p : List String}
    (h : find_path_model g a b = some p) : p.Nodup := by
  rw [find_path_model] at h
  rcases foldl_best_mem g _ none p h with hacc | hmem
  · cases hacc
  · have hnall : (graph_nodes g).Nodup := dedup_strings_nodup _
    exact (simple_paths_sound (graph_weight g) (graph_nodes g).length ((graph_nodes g).erase a)
      a b p hmem hnall.not_mem_erase (hnall.erase a)).1

theorem flows_for_direction_ports_valid {pm : List ((String × String) × String)}
    {ss : List String} {q : List String} {dst src : String} {f : FlowTuple}
    (hnd : q.Nodup)
    (hpinj : ∀ e1 ∈ pm, ∀ e2 ∈ pm, e1.1.1 = e2.1.1 → e1.2 = e2.2 → e1.1.2 = e2.1.2)
    (hf : f ∈ flows_for_direction pm ss q dst src) :
    ¬ f.in_port = f.out_port ∧
    (∃ x, dict_get pm (f.switch_id, x) = some f.in_port) ∧
    (∃ y, dict_get pm (f.switch_id, y) = some f.out_port) := by
  rcases flows_for_direction_elim hf with
    ⟨i, prev, cur, next, ipt, opt, hi1, hi2, hprev, hcur, hnext, hsw, hip, hop, hipne, hopne, hfe⟩
  subst hfe
  refine ⟨?_, ⟨prev, hip⟩, ⟨next, hop⟩⟩
  intro heq
  have heq2 : ipt = opt := heq
  have e1 := dict_get_mem hip
  have e2 := dict_get_mem hop
  have hpn : prev = next := hpinj _ e1 _ e2 rfl heq2
  rw [hpn] at hprev
  have hlt : i - 1 < q.length := by omega
  have hij := List.get?_inj hlt hnd (hprev.trans hnext.symm)
  omega

/-- C9: every rule the pipeline compiles has distinct in/out ports and both
ports appear in the port map of the rule's switch — under the
well-formedness that the path finder returns simple paths (`nx.astar_path`
does) and that no two port-map entries give one switch port two different
neighbours (each port carries one link or host, as in any real topology). -/
theorem c9_rule_ports_valid
    (t : Topology) (lk : Lookups) (fp : Finder) (F : List FlowTuple) (f : FlowTuple)
    (hins : install_all_routes t lk fp = Except.ok F)
    (hfind : ∀ (g : List Edge) (a b : String) (p : List String),
      fp g a b = some p → p.Nodup)
    (hpinj : ∀ e1 ∈ lk.port_map, ∀ e2 ∈ lk.port_map,
      e1.1.1 = e2.1.1 → e1.2 = e2.2 → e1.1.2 = e2.1.2)
    (hf : f ∈ F) :
    ¬ f.in_port = f.out_port ∧
    (∃ x, dict_get lk.port_map (f.switch_id, x) = some f.in_port) ∧
    (∃ y, dict_get lk.port_map (f.switch_id, y) = some f.out_port) := by
  rw [install_all_routes] at hins
  rcases hbg : build_graph t with e | g <;> rw [hbg] at hins
  · cases hins
  dsimp only at hins
  rcases huh : unique_hosts t.hosts with e | uh <;> rw [huh] at hins
  · cases hins
  dsimp only at hins
  by_cases hlen : (uh.map (fun h => h.mac)).length < 2
  · rw [if_pos hlen] at hins
    cases hins
    simp at hf
  · rw [if_neg hlen] at hins
    cases hins
    rcases concat_map_mem_elim hf with ⟨pr, _hprm, hfpair⟩
    rw [pair_flows] at hfpair
    split_ifs at hfpair with hips
    · simp at hfpair
    · rcases hfp2 : fp g pr.1 pr.2 with _ | p <;> rw [hfp2] at hfpair
      · simp at hfpair
      · dsimp only at hfpair
        have hnd : p.Nodup := hfind g pr.1 pr.2 p hfp2
        rw [flows_for_path] at hfpair
        rcases List.mem_append.mp hfpair with hdir | hdir
        · exact flows_for_direction_ports_valid hnd hpinj hdir
        · split_ifs at hdir
          · exact flows_for_direction_ports_valid (List.nodup_reverse.mpr hnd) hpinj hdir
          · exact flows_for_direction_ports_valid (List.nodup_reverse.mpr hnd) hpinj hdir

/-- C9 witness: the first compiled rule of the two-switch chain, with the
model path finder (whose paths are simple by `find_path_model_nodup`). -/
theorem c9_rule_ports_valid_witness :
    (⟨"of:a", "1", "3", 10, "00:02", "00:01"⟩ : FlowTuple) ∈ dist_flows ∧
    (¬ ("1" : String) = "3" ∧
      (∃ x, dict_get dist_lookups.port_map ("of:a", x) = some "1") ∧
      (∃ y, dict_get dist_lookups.port_map ("of:a", y) = some "3")) := by
  refine ⟨by decide, ?_⟩
  exact c9_rule_ports_valid dist_topology dist_lookups find_path_model dist_flows
    ⟨"of:a", "1", "3", 10, "00:02", "00:01"⟩
    (by with_unfolding_all rfl)
    (fun g a b p hp => find_path_model_nodup hp)
    (by decide)
    (by decide)

/-! Claim C6 machinery: the heuristic, its anchors, and sign facts. -/

theorem dict_get_isSome_exists {α β : Type} [DecidableEq α] {l : List (α × β)} {k : α}
    (h : (dict_get l k).isSome = true) : ∃ v, (k, v) ∈ l := by
  rcases Option.isSome_iff_exists.mp h with ⟨v, hv⟩
  exact ⟨v, dict_get_mem hv⟩

theorem D_get_nonneg {D : DTable} (hD : ∀ e ∈ D, 0 ≤ e.2) (a b : String) :
    0 ≤ D_get D a b := by
  rw [D_get]
  rcases hd : dict_get D (a, b) with _ | v
  · simp
  · have := hD _ (dict_get_mem hd)
    simpa using this

theorem heuristic_nonneg (lk : Lookups) (D : DTable) (n1 n2 : String)
    (hD : ∀ e ∈ D, 0 ≤ e.2) : 0 ≤ heuristic_function lk D n1 n2 := by
  have hsw : (0:ℚ) ≤ HOST_SWITCH_WEIGHT := by norm_num [HOST_SWITCH_WEIGHT]
  rw [heuristic_function]
  by_cases h1 : n1 = n2
  · rw [if_pos h1]
  · rw [if_neg h1]
    by_cases h2 : D = []
    · rw [if_pos h2]
    · rw [if_neg h2]
      rcases get_switch_for_node lk n1 with _ | s1 <;>
        rcases get_switch_for_node lk n2 with _ | s2 <;> dsimp only
      any_goals exact le_refl 0
      have hd := D_get_nonneg hD (clean_dpid s1) (clean_dpid s2)
      split_ifs
      any_goals exact le_refl 0
      all_goals linarith

theorem heuristic_value {lk : Lookups} {D : DTable} {n1 n2 a1 a2 : String}
    (hne : ¬ n1 = n2) (hD0 : ¬ D = [])
    (h1 : get_switch_for_node lk n1 = some a1) (h2 : get_switch_for_node lk n2 = some a2)
    (h1e : ¬ a1 = "") (h2e : ¬ a2 = "") :
    heuristic_function lk D n1 n2 =
      (if (dict_get lk.mac_to_ip n1).isSome then HOST_SWITCH_WEIGHT else 0)
        + (if (dict_get lk.mac_to_ip n2).isSome then HOST_SWITCH_WEIGHT else 0)
        + D_get D (clean_dpid a1) (clean_dpid a2) := by
  rw [heuristic_function, if_neg hne, if_neg hD0, h1, h2]
  dsimp only
  rw [if_neg (by tauto)]

theorem heuristic_zero_of_bad_right {lk : Lookups} {D : DTable} {n1 n2 : String}
    (h2 : get_switch_for_node lk n2 = none ∨ get_switch_for_node lk n2 = some "") :
    heuristic_function lk D n1 n2 = 0 := by
  rw [heuristic_function]
  by_cases ha : n1 = n2
  · rw [if_pos ha]
  · rw [if_neg ha]
    by_cases hb : D = []
    · rw [if_pos hb]
    · rw [if_neg hb]
      rcases h2 with h2 | h2 <;> rw [h2] <;>
        rcases get_switch_for_node lk n1 with _ | s1 <;> dsimp only
      all_goals first
      | rfl
      | rw [if_pos (Or.inr rfl)]

theorem mac_to_ip_isSome_iff {t : Topology} {lk : Lookups}
    (hlk : build_lookups t.hosts t.links t.switches = Except.ok lk) (n : String) :
    (dict_get lk.mac_to_ip n).isSome = true ↔ ∃ h ∈ t.hosts, h.mac = n := by
  have hmti : lk.mac_to_ip =
      t.hosts.filterMap (fun h => h.ipAddresses.head?.map (fun ip => (h.mac, ip))) := by
    rw [build_lookups_ok hlk]
  have hcomplete := build_lookups_hosts_complete hlk
  constructor
  · intro h
    rcases dict_get_isSome_exists h with ⟨v, hv⟩
    rw [hmti] at hv
    rcases List.mem_filterMap.mp hv with ⟨h0, hh0, hmap⟩
    rcases hip : h0.ipAddresses with _ | ⟨ip, tl⟩
    · rw [hip] at hmap
      cases hmap
    · rw [hip] at hmap
      simp at hmap
      exact ⟨h0, hh0, hmap.1⟩
  · intro h
    rcases h with ⟨h0, hh0, hmac⟩
    rcases hip : h0.ipAddresses with _ | ⟨ip, tl⟩
    · exfalso
      have : ¬ (t.hosts.any fun h0 => h0.ipAddresses.isEmpty || h0.locations.isEmpty) = true := by
        rw [hcomplete]
        simp
      apply this
      rw [List.any_eq_true]
      exact ⟨h0, hh0, by rw [hip]; simp⟩
    · apply dict_get_isSome_of_mem (v := ip)
      rw [hmti]
      apply List.mem_filterMap.mpr
      refine ⟨h0, hh0, ?_⟩
      rw [hip, hmac]
      simp

theorem mac_to_ip_some_of_host {t : Topology} {lk : Lookups}
    (hlk : build_lookups t.hosts t.links t.switches = Except.ok lk)
    {h0 : Host} (hh0 : h0 ∈ t.hosts) : (dict_get lk.mac_to_ip h0.mac).isSome = true :=
  (mac_to_ip_isSome_iff hlk h0.mac).mpr ⟨h0, hh0, rfl⟩

theorem mac_to_ip_none_of_switch {t : Topology} {lk : Lookups}
    (hlk : build_lookups t.hosts t.links t.switches = Except.ok lk)
    (w1 : ∀ h ∈ t.hosts, ¬ h.mac ∈ t.switches)
    {s : String} (hs : s ∈ t.switches) : (dict_get lk.mac_to_ip s).isSome = false := by
  cases hx : (dict_get lk.mac_to_ip s).isSome
  · rfl
  · exfalso
    rcases (mac_to_ip_isSome_iff hlk s).mp hx with ⟨h0, hh0, hmac⟩
    apply w1 h0 hh0
    rw [hmac]
    exact hs

theorem get_host_switch_eq {t : Topology} {lk : Lookups}
    (hlk : build_lookups t.hosts t.links t.switches = Except.ok lk)
    (w2 : ∀ h ∈ t.hosts, ∀ l ∈ t.links, ¬ h.mac = l.src.device ∧ ¬ h.mac = l.dst.device)
    (w3 : (t.hosts.map (fun h => h.mac)).Nodup)
    {h0 : Host} (hh0 : h0 ∈ t.hosts) {loc : HostLocation} {tl : List HostLocation}
    (hl0 : h0.locations = loc :: tl) (hsw : loc.elementId ∈ t.switches) :
    get_host_switch lk h0.mac = some loc.elementId := by
  have hpm : lk.port_map =
      t.links.map (fun l => ((l.src.device, l.dst.device), l.src.port))
        ++ t.hosts.filterMap
            (fun h => h.locations.head?.map (fun loc => ((loc.elementId, h.mac), loc.port))) := by
    rw [build_lookups_ok hlk]
  have hss : lk.switches_set = t.switches := lookups_switches_eq hlk
  rw [get_host_switch]
  apply list_find?_unique_mem
  · rw [hss]
    exact hsw
  · apply dict_get_isSome_of_mem (v := loc.port)
    rw [hpm]
    apply List.mem_append_right
    apply List.mem_filterMap.mpr
    refine ⟨h0, hh0, ?_⟩
    rw [hl0]
    simp
  · intro sw _hswm hpred
    rcases dict_get_isSome_exists hpred with ⟨v, hv⟩
    rw [hpm] at hv
    rcases List.mem_append.mp hv with hm | hm
    · exfalso
      rcases List.mem_map.mp hm with ⟨l, hl, he⟩
      have : l.dst.device = h0.mac := congrArg (fun e => e.1.2) he
      exact (w2 h0 hh0 l hl).2 this.symm
    · rcases List.mem_filterMap.mp hm with ⟨h1, hh1, hmap⟩
      rcases hl1 : h1.locations with _ | ⟨loc1, tl1⟩
      · rw [hl1] at hmap
        cases hmap
      · rw [hl1] at hmap
        simp at hmap
        have hmac : h1.mac = h0.mac := hmap.1.2
        have hhe : h1 = h0 := List.inj_on_of_nodup_map w3 hh1 hh0 hmac
        subst hhe
        rw [hl0] at hl1
        have hloce : loc = loc1 := (List.cons.injEq _ _ _ _ ▸ hl1).1
        rw [← hmap.1.1, ← hloce]

theorem get_switch_for_node_host {t : Topology} {lk : Lookups}
    (hlk : build_lookups t.hosts t.links t.switches = Except.ok lk)
    (w2 : ∀ h ∈ t.hosts, ∀ l ∈ t.links, ¬ h.mac = l.src.device ∧ ¬ h.mac = l.dst.device)
    (w3 : (t.hosts.map (fun h => h.mac)).Nodup)
    {h0 : Host} (hh0 : h0 ∈ t.hosts) {loc : HostLocation} {tl : List HostLocation}
    (hl0 : h0.locations = loc :: tl) (hsw : loc.elementId ∈ t.switches) :
    get_switch_for_node lk h0.mac = some loc.elementId := by
  rw [get_switch_for_node, if_pos (mac_to_ip_some_of_host hlk hh0)]
  exact get_host_switch_eq hlk w2 w3 hh0 hl0 hsw

theorem get_switch_for_node_switch {t : Topology} {lk : Lookups}
    (hlk : build_lookups t.hosts t.links t.switches = Except.ok lk)
    (w1 : ∀ h ∈ t.hosts, ¬ h.mac ∈ t.switches)
    {s : String} (hs : s ∈ t.switches) :
    get_switch_for_node lk s = some s := by
  rw [get_switch_for_node]
  rw [if_neg (by rw [mac_to_ip_none_of_switch hlk w1 hs]; simp)]
  rw [if_pos (by rw [lookups_switches_eq hlk]; exact hs)]

theorem anchor_mem {lk : Lookups} {v av : String}
    (h : get_switch_for_node lk v = some av) : av ∈ lk.switches_set := by
  rw [get_switch_for_node] at h
  split_ifs at h with h1 h2
  · rw [get_host_switch] at h
    exact List.mem_of_find?_eq_some h
  · rw [Option.some.injEq] at h
    rw [← h]
    exact h2

theorem bool_ne_true {b : Bool} (h : b = false) : ¬ b = true := by
  rw [h]
  simp

set_option maxHeartbeats 1600000 in
theorem heuristic_consistent
    (t : Topology) (lk : Lookups) (g : List Edge) (D : DTable)
    (hlk : build_lookups t.hosts t.links t.switches = Except.ok lk)
    (hg : build_graph t = Except.ok g)
    (w1 : ∀ h ∈ t.hosts, ¬ h.mac ∈ t.switches)
    (w2 : ∀ h ∈ t.hosts, ∀ l ∈ t.links, ¬ h.mac = l.src.device ∧ ¬ h.mac = l.dst.device)
    (w3 : (t.hosts.map (fun h => h.mac)).Nodup)
    (w4 : ∀ l ∈ t.links, l.src.device ∈ t.switches ∧ l.dst.device ∈ t.switches)
    (w5 : ∀ h ∈ t.hosts, ∀ loc ∈ h.locations.take 1, loc.elementId ∈ t.switches)
    (w6 : ¬ ("" : String) ∈ t.switches)
    (hWnn : ∀ l ∈ t.links, 0 ≤ link_weight t l)
    (hDnn : ∀ e ∈ D, 0 ≤ e.2)
    (hDzero : ∀ s ∈ t.switches, D_get D (clean_dpid s) (clean_dpid s) = 0)
    (hDrelax : ∀ l ∈ t.links, ∀ s ∈ t.switches,
      D_get D (clean_dpid l.src.device) (clean_dpid s) ≤
        link_weight t l + D_get D (clean_dpid l.dst.device) (clean_dpid s) ∧
      D_get D (clean_dpid l.dst.device) (clean_dpid s) ≤
        link_weight t l + D_get D (clean_dpid l.src.device) (clean_dpid s)) :
    ∀ u x v w, graph_weight g u x = some w →
      heuristic_function lk D u v ≤ w + heuristic_function lk D x v := by
  intro u x v w hw
  have hswnn : (0:ℚ) ≤ HOST_SWITCH_WEIGHT := by norm_num [HOST_SWITCH_WEIGHT]
  have hedge :
      (∃ h0 ∈ t.hosts, ∃ loc tl, h0.locations = loc :: tl ∧
        ((u = h0.mac ∧ x = loc.elementId) ∨ (x = h0.mac ∧ u = loc.elementId)) ∧
        w = HOST_SWITCH_WEIGHT) ∨
      (∃ l ∈ t.links,
        ((u = l.src.device ∧ x = l.dst.device) ∨ (x = l.src.device ∧ u = l.dst.device)) ∧
        w = link_weight t l) := by
    rcases graph_weight_mem hw with hm | hm <;>
      rcases build_graph_edge_cases hg hm with ⟨h0, hh0, loc, tl, hl0, he⟩ | ⟨l, hl, he⟩
    · exact Or.inl ⟨h0, hh0, loc, tl, hl0,
        Or.inl ⟨congrArg (fun e => e.1) he, congrArg (fun e => e.2.1) he⟩,
        congrArg (fun e => e.2.2) he⟩
    · exact Or.inr ⟨l, hl,
        Or.inl ⟨congrArg (fun e => e.1) he, congrArg (fun e => e.2.1) he⟩,
        congrArg (fun e => e.2.2) he⟩
    · exact Or.inl ⟨h0, hh0, loc, tl, hl0,
        Or.inr ⟨congrArg (fun e => e.1) he, congrArg (fun e => e.2.1) he⟩,
        congrArg (fun e => e.2.2) he⟩
    · exact Or.inr ⟨l, hl,
        Or.inr ⟨congrArg (fun e => e.1) he, congrArg (fun e => e.2.1) he⟩,
        congrArg (fun e => e.2.2) he⟩
  have hwnn : 0 ≤ w := by
    rcases hedge with ⟨h0, hh0, loc, tl, hl0, hor, hwv⟩ | ⟨l, hl, hor, hwv⟩
    · rw [hwv]
      exact hswnn
    · rw [hwv]
      exact hWnn l hl
  by_cases huv : u = v
  · rw [heuristic_function, if_pos huv]
    have := heuristic_nonneg lk D x v hDnn
    linarith
  by_cases hD0 : D = []
  · rw [heuristic_function, if_neg huv, if_pos hD0]
    have := heuristic_nonneg lk D x v hDnn
    linarith
  rcases hano : get_switch_for_node lk v with _ | av
  · rw [heuristic_zero_of_bad_right (Or.inl hano)]
    have := heuristic_nonneg lk D x v hDnn
    linarith
  by_cases havem : av = ""
  · rw [heuristic_zero_of_bad_right (Or.inr (by rw [hano, havem]))]
    have := heuristic_nonneg lk D x v hDnn
    linarith
  have hav_mem : av ∈ t.switches := by
    rw [← lookups_switches_eq hlk]
    exact anchor_mem hano
  rcases hedge with ⟨h0, hh0, loc, tl, hl0, hor, hwv⟩ | ⟨l, hl, hor, hwv⟩
  · have hswT : loc.elementId ∈ t.switches := by
      refine w5 h0 hh0 loc ?_
      rw [hl0]
      simp
    have hswne : ¬ loc.elementId = "" := fun hx => w6 (hx ▸ hswT)
    have hanchor_mac : get_switch_for_node lk h0.mac = some loc.elementId :=
      get_switch_for_node_host hlk w2 w3 hh0 hl0 hswT
    have hanchor_sw : get_switch_for_node lk loc.elementId = some loc.elementId :=
      get_switch_for_node_switch hlk w1 hswT
    have hmti_mac : (dict_get lk.mac_to_ip h0.mac).isSome = true :=
      mac_to_ip_some_of_host hlk hh0
    have hmti_sw : (dict_get lk.mac_to_ip loc.elementId).isSome = false :=
      mac_to_ip_none_of_switch hlk w1 hswT
    rcases hor with ⟨hu, hx⟩ | ⟨hx, hu⟩
    · subst hu
      subst hx
      subst hwv
      rw [heuristic_value huv hD0 hanchor_mac hano hswne havem, if_pos hmti_mac]
      by_cases hxv : loc.elementId = v
      · have hav2 : av = loc.elementId := by
          rw [← hxv, hanchor_sw] at hano
          exact (Option.some.inj hano).symm
        have hzero : heuristic_function lk D loc.elementId v = 0 := by
          rw [heuristic_function, if_pos hxv]
        have hmti_v : (dict_get lk.mac_to_ip v).isSome = false := by
          rw [← hxv]
          exact hmti_sw
        rw [hzero, if_neg (bool_ne_true hmti_v), hav2, hDzero _ hswT]
        linarith
      · rw [heuristic_value hxv hD0 hanchor_sw hano hswne havem,
          if_neg (bool_ne_true hmti_sw)]
        linarith
    · subst hx
      subst hu
      subst hwv
      rw [heuristic_value huv hD0 hanchor_sw hano hswne havem,
        if_neg (bool_ne_true hmti_sw)]
      by_cases hxv : h0.mac = v
      · have hav2 : av = loc.elementId := by
          rw [← hxv, hanchor_mac] at hano
          exact (Option.some.inj hano).symm
        have hzero : heuristic_function lk D h0.mac v = 0 := by
          rw [heuristic_function, if_pos hxv]
        have hmti_v : (dict_get lk.mac_to_ip v).isSome = true := by
          rw [← hxv]
          exact hmti_mac
        rw [hzero, if_pos hmti_v, hav2, hDzero _ hswT]
        linarith
      · rw [heuristic_value hxv hD0 hanchor_mac hano hswne havem, if_pos hmti_mac]
        linarith
  · have hsT : l.src.device ∈ t.switches := (w4 l hl).1
    have hdT : l.dst.device ∈ t.switches := (w4 l hl).2
    have hsne : ¬ l.src.device = "" := fun hx => w6 (hx ▸ hsT)
    have hdne : ¬ l.dst.device = "" := fun hx => w6 (hx ▸ hdT)
    have hanchor_s : get_switch_for_node lk l.src.device = some l.src.device :=
      get_switch_for_node_switch hlk w1 hsT
    have hanchor_d : get_switch_for_node lk l.dst.device = some l.dst.device :=
      get_switch_for_node_switch hlk w1 hdT
    have hmti_s : (dict_get lk.mac_to_ip l.src.device).isSome = false :=
      mac_to_ip_none_of_switch hlk w1 hsT
    have hmti_d : (dict_get lk.mac_to_ip l.dst.device).isSome = false :=
      mac_to_ip_none_of_switch hlk w1 hdT
    rcases hor with ⟨hu, hx⟩ | ⟨hx, hu⟩
    · subst hu
      subst hx
      subst hwv
      rw [heuristic_value huv hD0 hanchor_s hano hsne havem,
        if_neg (bool_ne_true hmti_s)]
      by_cases hxv : l.dst.device = v
      · have hav2 : av = l.dst.device := by
          rw [← hxv, hanchor_d] at hano
          exact (Option.some.inj hano).symm
        have hzero : heuristic_function lk D l.dst.device v = 0 := by
          rw [heuristic_function, if_pos hxv]
        have hmti_v : (dict_get lk.mac_to_ip v).isSome = false := by
          rw [← hxv]
          exact hmti_d
        have hrel := (hDrelax l hl l.dst.device hdT).1
        rw [hDzero _ hdT] at hrel
        rw [hzero, if_neg (bool_ne_true hmti_v), hav2]
        linarith
      · have hrel := (hDrelax l hl av hav_mem).1
        rw [heuristic_value hxv hD0 hanchor_d hano hdne havem,
          if_neg (bool_ne_true hmti_d)]
        linarith
    · subst hx
      subst hu
      subst hwv
      rw [heuristic_value huv hD0 hanchor_d hano hdne havem,
        if_neg (bool_ne_true hmti_d)]
      by_cases hxv : l.src.device = v
      · have hav2 : av = l.src.device := by
          rw [← hxv, hanchor_s] at hano
          exact (Option.some.inj hano).symm
        have hzero : heuristic_function lk D l.src.device v = 0 := by
          rw [heuristic_function, if_pos hxv]
        have hmti_v : (dict_get lk.mac_to_ip v).isSome = false := by
          rw [← hxv]
          exact hmti_s
        have hrel := (hDrelax l hl l.src.device hsT).2
        rw [hDzero _ hsT] at hrel
        rw [hzero, if_neg (bool_ne_true hmti_v), hav2]
        linarith
      · have hrel := (hDrelax l hl av hav_mem).2
        rw [heuristic_value hxv hD0 hanchor_s hano hsne havem,
          if_neg (bool_ne_true hmti_s)]
        linarith

theorem admissible_of_consistent {W : String → String → Option ℚ} {H : String → String → ℚ}
    (h0 : ∀ v, H v v = 0)
    (hc : ∀ u x v w, W u x = some w → H u v ≤ w + H x v) :
    ∀ (p : List String) (u v : String), p.head? = some u → p.getLast? = some v →
      List.Chain' (fun a b => (W a b).isSome = true) p → H u v ≤ path_cost W p := by
  intro p
  induction p with
  | nil =>
    intro u v hh
    simp at hh
  | cons a rest ih =>
    intro u v hh hl hch
    have hu : a = u := Option.some.inj hh
    subst hu
    cases rest with
    | nil =>
      have hv : a = v := by simpa using hl
      rw [← hv, h0]
      simp [path_cost]
    | cons b rest2 =>
      rw [List.getLast?_cons_cons] at hl
      rcases List.chain'_cons.mp hch with ⟨hab, hch2⟩
      rcases Option.isSome_iff_exists.mp hab with ⟨w, hwv⟩
      have hrec := ih b v rfl hl hch2
      have hstep := hc a b v w hwv
      have hco : path_cost W (a :: b :: rest2) = w + path_cost W (b :: rest2) := by
        simp only [path_cost]
        rw [hwv]
        simp
      rw [hco]
      linarith

/-- C6: the A* heuristic is consistent and admissible on the weighted graph.
Consistency: for every graph edge `{u, x}` of weight `w` and every node `v`,
`h(u,v) ≤ w + h(x,v)`.  Admissibility: `h(u,v)` is at most the cost of any
path from `u` to `v`, hence at most the true shortest-path cost.  The
hypotheses are the controller's data-model well-formedness (`w1`–`w6`),
non-negative weights, and the defining properties of the precomputed
switch-distance table `D` — what `nx.all_pairs_dijkstra_path_length` returns
on the switch-only subgraph (zero self-distance, edge relaxation, missing
pairs defaulting to zero). -/
theorem c6_heuristic_admissible_consistent
    (t : Topology) (lk : Lookups) (g : List Edge) (D : DTable)
    (hlk : build_lookups t.hosts t.links t.switches = Except.ok lk)
    (hg : build_graph t = Except.ok g)
    (w1 : ∀ h ∈ t.hosts, ¬ h.mac ∈ t.switches)
    (w2 : ∀ h ∈ t.hosts, ∀ l ∈ t.links, ¬ h.mac = l.src.device ∧ ¬ h.mac = l.dst.device)
    (w3 : (t.hosts.map (fun h => h.mac)).Nodup)
    (w4 : ∀ l ∈ t.links, l.src.device ∈ t.switches ∧ l.dst.device ∈ t.switches)
    (w5 : ∀ h ∈ t.hosts, ∀ loc ∈ h.locations.take 1, loc.elementId ∈ t.switches)
    (w6 : ¬ ("" : String) ∈ t.switches)
    (hWnn : ∀ l ∈ t.links, 0 ≤ link_weight t l)
    (hDnn : ∀ e ∈ D, 0 ≤ e.2)
    (hDzero : ∀ s ∈ t.switches, D_get D (clean_dpid s) (clean_dpid s) = 0)
    (hDrelax : ∀ l ∈ t.links, ∀ s ∈ t.switches,
      D_get D (clean_dpid l.src.device) (clean_dpid s) ≤
        link_weight t l + D_get D (clean_dpid l.dst.device) (clean_dpid s) ∧
      D_get D (clean_dpid l.dst.device) (clean_dpid s) ≤
        link_weight t l + D_get D (clean_dpid l.src.device) (clean_dpid s)) :
    (∀ u x v w, graph_weight g u x = some w →
      heuristic_function lk D u v ≤ w + heuristic_function lk D x v) ∧
    (∀ (p : List String) (u v : String), p.head? = some u → p.getLast? = some v →
      List.Chain' (fun a b => (graph_weight g a b).isSome = true) p →
      heuristic_function lk D u v ≤ path_cost (graph_weight g) p) := by
  have hcons := heuristic_consistent t lk g D hlk hg w1 w2 w3 w4 w5 w6 hWnn hDnn hDzero hDrelax
  refine ⟨hcons, ?_⟩
  exact admissible_of_consistent
    (fun v => by rw [heuristic_function, if_pos rfl]) hcons

/-- The switch-distance table Dijkstra computes on the switch subgraph of
`dist_topology` (keys are cleaned DPIDs). -/
def dist_D : DTable := [(("a", "a"), 0), (("a", "b"), 5), (("b", "a"), 5), (("b", "b"), 0)]

/-- C6 witness: on the two-switch chain with sidecar distance 5 and the
matching distance table, the heuristic between the two hosts is bounded by
the cost of the concrete host-to-host path (admissibility) and satisfies
the consistency inequality along the first edge. -/
theorem c6_heuristic_admissible_consistent_witness :
    heuristic_function dist_lookups dist_D "00:01" "00:02" ≤
      path_cost (graph_weight dist_graph) ["00:01", "of:a", "of:b", "00:02"] ∧
    heuristic_function dist_lookups dist_D "00:01" "00:02" ≤
      1/10 + heuristic_function dist_lookups dist_D "of:a" "00:02" := by
  have hmain := c6_heuristic_admissible_consistent dist_topology dist_lookups dist_graph dist_D
    (by with_unfolding_all rfl) (by with_unfolding_all rfl)
    (by decide) (by decide) (by decide) (by decide) (by decide) (by decide)
    (by with_unfolding_all decide) (by with_unfolding_all decide)
    (by with_unfolding_all decide) (by with_unfolding_all decide)
  constructor
  · refine hmain.2 ["00:01", "of:a", "of:b", "00:02"] "00:01" "00:02" rfl (by decide) ?_
    refine List.chain'_cons.mpr ⟨?_, List.chain'_cons.mpr ⟨?_, List.chain'_cons.mpr
      ⟨?_, List.chain'_singleton _⟩⟩⟩
    · with_unfolding_all rfl
    · with_unfolding_all rfl
    · with_unfolding_all rfl
  · exact hmain.1 "00:01" "of:a" "00:02" (1/10) (by with_unfolding_all rfl)

end Mininet
